import Mathlib

/-!
# Verification of the open-window forecast core (`app.py`)

Shallow embedding of the forecast-to-interval reduction algorithm:

* the humidity model `calculate_rh` (Magnus/Sonntag90 formula), with Python
  floats idealised as real numbers and `math.exp` as `Real.exp`;
* the per-hour admissibility evaluation and the run-length encoding of
  admissible hours performed by `find_optimal_periods`, including the
  day-partitioned interval maps.

Modelling conventions:

* A naive local timestamp is a number of minutes (`ℤ`); the calendar date of a
  timestamp is its floor-quotient by 1440.  `tz.localize` attaches a zone
  without changing the wall clock, so it is the identity here.
  `naive.astimezone(tz)` reinterprets a naive timestamp from the ambient
  system timezone into the forecast timezone; with fixed offsets this shifts
  the wall clock by the offset difference, modelled by the explicit parameter
  `sysDelta` (zero exactly when the two zones agree).
* Missing JSON keys and `None` values are `Option`; Python `dict` payloads are
  structures with `Option` fields.  `list[i]` raises on an out-of-range index,
  so the per-hour loop is embedded in `Except`.
* Formatted strings (`strftime`) are presentation-only; interval outputs are
  kept as the pairs of instants that the strings render.
-/

open Real

/-- `ftoc` from `app.py`: Fahrenheit to Celsius, passing absent values through. -/
noncomputable def ftoc (f : Option ℝ) : Option ℝ :=
  match f with
  | none => none
  | some x => some ((x - 32) * 5 / 9)

/-- `ctof` from `app.py`: Celsius to Fahrenheit, passing absent values through. -/
noncomputable def ctof (c : Option ℝ) : Option ℝ :=
  match c with
  | none => none
  | some x => some (x * 9 / 5 + 32)

/-- The saturation-vapor-pressure expression used inside `calculate_rh`:
`6.112 * exp((17.62 * t) / (243.12 + t))`. -/
noncomputable def magnusVP (t : ℝ) : ℝ :=
  6.112 * Real.exp ((17.62 * t) / (243.12 + t))

/-- `calculate_rh` from `app.py`: relative humidity (%) from temperature (°C)
and dew point (°C); `None` inputs give `None`, the result of the vapor
pressure ratio is clamped to `[0, 100]`, and an `es ≤ 0` guard returns `None`. -/
noncomputable def calculate_rh (temp_c dew_point_c : Option ℝ) : Option ℝ :=
  match temp_c, dew_point_c with
  | some t, some d =>
    let es := magnusVP t
    let e := magnusVP d
    if es ≤ 0 then none
    else some (min (max ((e / es) * 100) 0) 100)
  | _, _ => none

theorem magnusVP_pos (t : ℝ) : 0 < magnusVP t := by
  have h := Real.exp_pos ((17.62 * t) / (243.12 + t))
  unfold magnusVP
  positivity

theorem calculate_rh_some (t d : ℝ) :
    calculate_rh (some t) (some d)
      = some (min (max ((magnusVP d / magnusVP t) * 100) 0) 100) := by
  have h : calculate_rh (some t) (some d)
      = if magnusVP t ≤ 0 then none
        else some (min (max ((magnusVP d / magnusVP t) * 100) 0) 100) := rfl
  rw [h, if_neg (not_le.mpr (magnusVP_pos t))]

/-- The Magnus exponent `17.62 * t / (243.12 + t)` is monotone above the pole. -/
theorem magnus_arg_mono {x y : ℝ} (hx : -243.12 < x) (hxy : x ≤ y) :
    (17.62 * x) / (243.12 + x) ≤ (17.62 * y) / (243.12 + y) := by
  have hdx : (0:ℝ) < 243.12 + x := by linarith
  have hdy : (0:ℝ) < 243.12 + y := by linarith
  rw [div_le_div_iff₀ hdx hdy]
  nlinarith

theorem magnusVP_mono {x y : ℝ} (hx : -243.12 < x) (hxy : x ≤ y) :
    magnusVP x ≤ magnusVP y := by
  unfold magnusVP
  have := Real.exp_le_exp.mpr (magnus_arg_mono hx hxy)
  nlinarith [Real.exp_pos ((17.62 * x) / (243.12 + x))]

theorem calculate_rh_self (x : ℝ) : calculate_rh (some x) (some x) = some 100 := by
  rw [calculate_rh_some]
  have hpos := magnusVP_pos x
  rw [div_self (ne_of_gt hpos)]
  norm_num

/-- The `WeatherInputs` dataclass of `app.py` (the fields consumed by
`find_optimal_periods`; the location/coordinate fields feed only the excluded
network collaborators).  All are integers in the source. -/
structure WeatherInputs where
  min_temp : ℤ
  max_temp : ℤ
  min_rh : ℤ
  max_rh : ℤ
  indoor_ref_temp : ℤ
  max_aqi : ℤ
  max_precip_prob : ℤ

/-- The local calendar date of a timestamp (`dt_local.strftime` day key):
floor-quotient of wall-clock minutes by minutes-per-day (`/` on `ℤ` rounds
toward negative infinity for this positive divisor). -/
def dayOf (t : ℤ) : ℤ := t / 1440

/-- The `'hourly'` block of the weather payload.  `time` models the `'time'`
key check of line 176; the temperature and dew-point arrays are fetched with
`[]` (a missing key raises), precipitation and probability with `.get` and a
default.  Array entries may be JSON `null` (absent); probability entries are
compared directly against the threshold, so a `null` there would raise in the
source and is outside the embedded input domain. -/
structure WeatherHourly where
  time : Option (List ℤ)
  temperature_2m : Option (List (Option ℝ))
  dew_point_2m : Option (List (Option ℝ))
  precipitation : Option (List (Option ℝ))
  precipitation_probability : Option (List ℝ)

/-- The weather payload (timezone string abstracted: `tz.localize` preserves
the wall clock, so localisation is the identity on minute timestamps). -/
structure WeatherData where
  hourly : Option WeatherHourly

/-- The `'hourly'` block of the AQI payload. -/
structure AqiHourly where
  time : Option (List ℤ)
  us_aqi : Option (List (Option ℝ))

/-- The AQI payload. -/
structure AqiData where
  hourly : Option AqiHourly

/-- Python-dict construction of `aqi_values_dict` (later writes win) followed
by `.get` lookup; a stored `null` and a missing key both read back as absent. -/
def buildAqiDict (pairs : List (ℤ × Option ℝ)) : ℤ → Option ℝ :=
  pairs.foldl (fun d p => fun t => if t = p.1 then p.2 else d t) (fun _ => none)

/-- Lines 186–199 of `app.py`: decide whether AQI data is available for the
run and build the timestamp-keyed dictionary (populated only when available). -/
def aqiAvailability (aqi_data : Option AqiData) : Bool × (ℤ → Option ℝ) :=
  match aqi_data with
  | some ad =>
    match ad.hourly with
    | some ah =>
      match ah.time with
      | some aq_times =>
        match ah.us_aqi with
        | some aqi_vals =>
          if aq_times.length = aqi_vals.length then
            (true, buildAqiDict (aq_times.zip aqi_vals))
          else (false, fun _ => none)
        | none => (false, fun _ => none)
      | none => (false, fun _ => none)
    | none => (false, fun _ => none)
  | none => (false, fun _ => none)

/-- One element of `hourly_data_list` together with the per-hour check flags
(locals of the loop body, lines 229–243, exposed as fields). -/
structure HourPoint where
  dt_local : ℤ
  is_good : Bool
  temp_f : Option ℝ
  rh_in : Option ℝ
  precip : Option ℝ
  aqi : Option ℝ
  precip_prob : ℝ
  primary_data_ok : Bool
  temp_ok : Bool
  rh_ok : Bool
  precip_ok : Bool
  precip_prob_ok : Bool
  aqi_ok : Bool

/-- The per-hour evaluation, lines 221–243 of `app.py`: admissibility flags and
the tuple appended to `hourly_data_list`.  `primary_data_ok` is presence of
temperature, dew point and precipitation; each check defaults to `false` when
its value is absent, except the AQI check which passes when AQI data is
unavailable for the whole run. -/
noncomputable def evalHour (inp : WeatherInputs) (indoor_ref_temp_c : ℝ)
    (aq_available : Bool) (aqiDict : ℤ → Option ℝ) (t : ℤ)
    (temp_out_f dew_point_out_f precip : Option ℝ) (precip_probability : ℝ) :
    HourPoint :=
  let aqi := aqiDict t
  let dt_local := t
  match temp_out_f, dew_point_out_f, precip with
  | some tf, some df, some pr =>
    let predicted_rh_in := calculate_rh (some indoor_ref_temp_c) (ftoc (some df))
    let temp_ok := decide ((inp.min_temp : ℝ) ≤ tf ∧ tf ≤ (inp.max_temp : ℝ))
    let rh_ok :=
      match predicted_rh_in with
      | some r => decide ((inp.min_rh : ℝ) ≤ r ∧ r ≤ (inp.max_rh : ℝ))
      | none => false
    let precip_ok := decide (pr < 0.1)
    let precip_prob_ok := decide (precip_probability ≤ (inp.max_precip_prob : ℝ))
    let aqi_ok :=
      if aq_available then
        match aqi with
        | some a => decide (a ≤ (inp.max_aqi : ℝ))
        | none => false
      else true
    let is_good := temp_ok && rh_ok && precip_ok && precip_prob_ok && aqi_ok
    ⟨dt_local, is_good, some tf, predicted_rh_in, some pr, aqi,
      precip_probability, true, temp_ok, rh_ok, precip_ok, precip_prob_ok, aqi_ok⟩
  | _, _, _ =>
    ⟨dt_local, false, temp_out_f, none, precip, aqi,
      precip_probability, false, false, false, false, false, false⟩

/-- Structural failures of `find_optimal_periods`: the guarded parse failure of
line 176 (whose error result also fails to construct in the source, since
`ForecastResult` has no `info` field), a `KeyError` on a required array, and an
`IndexError` from an unguarded positional access in the loop. -/
inductive DataError where
  | badPayload : DataError
  | missingArray : DataError
  | outOfRange : DataError
deriving DecidableEq

/-- One iteration of the loop of lines 220–227: positional access into the
temperature, dew-point and precipitation arrays (unguarded: out-of-range
raises), the guarded probability access defaulting to `0.0`, and the per-hour
evaluation. -/
noncomputable def readHour (inp : WeatherInputs) (ref_c : ℝ) (aq : Bool)
    (dict : ℤ → Option ℝ) (temps dews precs : List (Option ℝ)) (pps : List ℝ)
    (i : ℕ) (t : ℤ) : Except DataError HourPoint :=
  match temps.get? i, dews.get? i, precs.get? i with
  | some tf, some df, some pr =>
    .ok (evalHour inp ref_c aq dict t tf df pr ((pps.get? i).getD 0))
  | _, _, _ => .error .outOfRange

/-- The whole per-hour loop: build `hourly_data_list` in timestamp order,
starting at position `i`. -/
noncomputable def buildHourly (inp : WeatherInputs) (ref_c : ℝ) (aq : Bool)
    (dict : ℤ → Option ℝ) (temps dews precs : List (Option ℝ)) (pps : List ℝ) :
    List ℤ → ℕ → Except DataError (List HourPoint)
  | [], _ => .ok []
  | t :: rest, i =>
    match readHour inp ref_c aq dict temps dews precs pps i t with
    | .error e => .error e
    | .ok hp =>
      match buildHourly inp ref_c aq dict temps dews precs pps rest (i + 1) with
      | .error e => .error e
      | .ok hps => .ok (hp :: hps)

/-- The overall run-length transitions of lines 256–265: open an interval at a
good hour when none is open, close at the first non-good hour.  Returns the
closed intervals in order and the still-open start. -/
def overallScan : Option ℤ → List HourPoint → List (ℤ × ℤ) × Option ℤ
  | st, [] => ([], st)
  | none, h :: rest =>
    overallScan (if h.is_good then some h.dt_local else none) rest
  | some s, h :: rest =>
    if h.is_good then overallScan (some s) rest
    else
      let p := overallScan none rest
      ((s, h.dt_local) :: p.1, p.2)

/-- Lines 256–273: the overall interval list, closing a horizon-final open
interval at `times[-1].astimezone(tz) + 1 hour` — the `astimezone` call
reinterprets the naive timestamp from the system timezone, shifting the wall
clock by `sysDelta` minutes (zero only when the zones agree), unlike the
`tz.localize` used for every in-loop timestamp. -/
def overallPeriods (times : List ℤ) (sysDelta : ℤ) (hs : List HourPoint) :
    List (ℤ × ℤ) :=
  let p := overallScan none hs
  match p.2, times.getLast? with
  | some s, some tl => p.1 ++ [(s, tl + sysDelta + 60)]
  | _, _ => p.1

/-- `m.any (·.1 = k)`: the `day_str not in daily_chart_data_map` test. -/
def hasKey (m : List (ℤ × List α)) (k : ℤ) : Bool :=
  m.any (fun p => decide (p.1 = k))

/-- Append a value to the bucket stored under key `k` (Python
`map[k].append(v)`; keys are unique by construction). -/
def appendAt (m : List (ℤ × List α)) (k : ℤ) (v : α) : List (ℤ × List α) :=
  m.map (fun p => if p.1 = k then (p.1, p.2 ++ [v]) else p)

/-- Add a fresh empty bucket (`map[k] = []`), keeping insertion order. -/
def addKey (m : List (ℤ × List α)) (k : ℤ) : List (ℤ × List α) :=
  m ++ [(k, [])]

/-- The mutable state of the daily grouping loop of lines 284–300. -/
structure DayState where
  chart : List (ℤ × List HourPoint)
  ints : List (ℤ × List (ℤ × ℤ))
  cur : ℤ
  start : Option ℤ
  last : Option ℤ

/-- One iteration of the daily loop (lines 286–300): on a new local date any
open interval is closed at the current hour and assigned to the outgoing day,
then fresh buckets begin; the hour is appended to the current chart bucket;
then the usual open/close transitions run against the current day's bucket. -/
def dayStep (s : DayState) (h : HourPoint) : DayState :=
  let day := dayOf h.dt_local
  let s1 : DayState := ⟨s.chart, s.ints, s.cur, s.start, some h.dt_local⟩
  let s2 : DayState :=
    if hasKey s1.chart day then s1
    else
      let s' : DayState :=
        match s1.start with
        | some st =>
          ⟨s1.chart, appendAt s1.ints s1.cur (st, h.dt_local), s1.cur, none, s1.last⟩
        | none => s1
      ⟨addKey s'.chart day, addKey s'.ints day, day, s'.start, s'.last⟩
  let s3 : DayState :=
    ⟨appendAt s2.chart s2.cur h, s2.ints, s2.cur, s2.start, s2.last⟩
  match s3.start, h.is_good with
  | none, true => ⟨s3.chart, s3.ints, s3.cur, some h.dt_local, s3.last⟩
  | some st, false =>
    ⟨s3.chart, appendAt s3.ints s3.cur (st, h.dt_local), s3.cur, none, s3.last⟩
  | _, _ => s3

/-- Lines 301–304: after the daily loop, a still-open interval is closed at
`last_dt_local + 1 hour` into the current (last) day's bucket. -/
def dailyFinish (s : DayState) :
    List (ℤ × List HourPoint) × List (ℤ × List (ℤ × ℤ)) :=
  match s.start, s.last with
  | some st, some l => (s.chart, appendAt s.ints s.cur (st, l + 60))
  | _, _ => (s.chart, s.ints)

/-- Lines 279–304: group `hourly_data_list` into per-day chart buckets and
per-day good intervals. -/
def dailyPhase (hs : List HourPoint) :
    List (ℤ × List HourPoint) × List (ℤ × List (ℤ × ℤ)) :=
  match hs with
  | [] => ([], [])
  | h0 :: _ =>
    let d0 := dayOf h0.dt_local
    let init : DayState := ⟨[(d0, [])], [(d0, [])], d0, none, none⟩
    dailyFinish (hs.foldl dayStep init)

/-- The `ForecastResult` of `app.py`, with formatted text lists abstracted to
the instant pairs they render (`daily_good_periods_text` repeats the endpoints
of `daily_good_intervals` verbatim, including at day boundaries, where
`(prev_day_last_hour + 1 hour)` equals the closing hour's timestamp). -/
structure ForecastResult where
  periods : List (ℤ × ℤ)
  daily_chart_data : List (ℤ × List HourPoint)
  daily_good_intervals : List (ℤ × List (ℤ × ℤ))

/-- The timestamp axis of a weather payload, when structurally present
(the guard of line 176). -/
def weatherTimes (weather : Option WeatherData) : Option (List ℤ) :=
  match weather with
  | none => none
  | some wd =>
    match wd.hourly with
    | none => none
    | some wh => wh.time

/-- The prelude (lines 176–227) and per-hour loop of `find_optimal_periods`:
structural guard, required-array lookups, defaults for the optional arrays,
AQI availability, indoor reference conversion, then `hourly_data_list`. -/
noncomputable def hourlyData (weather : Option WeatherData)
    (aqi_data : Option AqiData) (inp : WeatherInputs) :
    Except DataError (List HourPoint) :=
  match weatherTimes weather, weather with
  | some times, some wd =>
    match wd.hourly with
    | some wh =>
      match wh.temperature_2m, wh.dew_point_2m with
      | some temps_f, some dew_points_f =>
        let precip_mm := wh.precipitation.getD (List.replicate times.length (some (0:ℝ)))
        let precip_prob := wh.precipitation_probability.getD (List.replicate times.length (0:ℝ))
        let av := aqiAvailability aqi_data
        match ftoc (some (inp.indoor_ref_temp : ℝ)) with
        | none => .error .badPayload
        | some indoor_ref_temp_c =>
          buildHourly inp indoor_ref_temp_c av.1 av.2 temps_f dew_points_f
            precip_mm precip_prob times 0
      | _, _ => .error .missingArray
    | none => .error .badPayload
  | _, _ => .error .badPayload

/-- `find_optimal_periods` from `app.py`: the full reduction, parametrised by
`sysDelta`, the wall-clock shift that `astimezone` applies to a naive
timestamp (offset of the forecast timezone minus offset of the ambient system
timezone; `0` when they coincide). -/
noncomputable def find_optimal_periods (weather : Option WeatherData)
    (aqi_data : Option AqiData) (inp : WeatherInputs) (sysDelta : ℤ) :
    Except DataError ForecastResult :=
  match hourlyData weather aqi_data inp, weatherTimes weather with
  | .error e, _ => .error e
  | .ok hs, some times =>
    .ok ⟨overallPeriods times sysDelta hs, (dailyPhase hs).1, (dailyPhase hs).2⟩
  | .ok _, none => .error .badPayload

/-- Test thresholds: default temperature band 67–79 °F, RH band widened to
[0, 100] so that a dew point equal to the 69 °F indoor reference (predicted
RH exactly 100) passes, AQI cap 50, precipitation-probability cap 10 %. -/
def inpW : WeatherInputs := ⟨67, 79, 0, 100, 69, 50, 10⟩

/-- The empty AQI dictionary. -/
def noDict : ℤ → Option ℝ := fun _ => none

/-- An admissible-hour sample as produced by `evalHour` under `inpW` for
70 °F outdoor, 69 °F dew point, dry, 0 % precipitation probability, no AQI. -/
noncomputable def goodHP (t : ℤ) : HourPoint :=
  ⟨t, true, some 70, some 100, some 0, none, 0, true, true, true, true, true, true⟩

/-- A non-admissible sample: outdoor temperature absent. -/
noncomputable def badHP (t : ℤ) : HourPoint :=
  ⟨t, false, none, none, some 0, none, 0, false, false, false, false, false, false⟩

/-- Two-hour payload, both hours admissible under `inpW`. -/
noncomputable def wC : Option WeatherData :=
  some ⟨some ⟨some [0, 60], some [some 70, some 70], some [some 69, some 69],
    some [some 0, some 0], some [0, 0]⟩⟩

/-- AQI payload matching `wC`'s timestamps with every value above the cap. -/
noncomputable def aqiBadC : Option AqiData :=
  some ⟨some ⟨some [0, 60], some [some 999, some 999]⟩⟩

/-- Five-hour payload whose admissible run (hours 22:00–01:00 wall clock)
straddles local midnight; the final hour is non-admissible (no temperature). -/
noncomputable def wS : Option WeatherData :=
  some ⟨some ⟨some [1320, 1380, 1440, 1500, 1560],
    some [some 70, some 70, some 70, some 70, none],
    some [some 69, some 69, some 69, some 69, some 69],
    some [some 0, some 0, some 0, some 0, some 0],
    some [0, 0, 0, 0, 0]⟩⟩

/-- Single admissible hour at 23:00 wall clock, for the horizon-close check. -/
noncomputable def wF : Option WeatherData :=
  some ⟨some ⟨some [1380], some [some 70], some [some 69], some [some 0],
    some [0]⟩⟩

/-- Two-hour payload whose precipitation-probability array has length 1,
shorter than the timestamp axis. -/
noncomputable def wP : Option WeatherData :=
  some ⟨some ⟨some [0, 60], some [some 70, some 70], some [some 69, some 69],
    some [some 0, some 0], some [0]⟩⟩

/-- Structurally broken payload: no `'time'` axis. -/
noncomputable def w9c : Option WeatherData :=
  some ⟨some ⟨none, some [], some [], none, none⟩⟩

/-- Payload with a timestamp axis but no temperature array. -/
noncomputable def w9d : Option WeatherData :=
  some ⟨some ⟨some [0], none, some [some 69], none, none⟩⟩

/-- Payload with a timestamp axis but no dew-point array. -/
noncomputable def w9e : Option WeatherData :=
  some ⟨some ⟨some [0], some [some 70], none, none, none⟩⟩

/-- Malformed AQI payload: value array shorter than its own timestamp axis. -/
noncomputable def aqiMismatch : Option AqiData :=
  some ⟨some ⟨some [0, 60], some [some 10]⟩⟩

/-- Payload whose temperature array is shorter than the timestamp axis. -/
noncomputable def w10 : Option WeatherData :=
  some ⟨some ⟨some [0, 60], some [some 70], some [some 69, some 69],
    some [some 0, some 0], some [0, 0]⟩⟩

/-- The indoor reference temperature of `inpW` converted to Celsius, as
computed in the prelude of `find_optimal_periods`. -/
noncomputable def refW : ℝ := ((inpW.indoor_ref_temp : ℝ) - 32) * 5 / 9

/-- The sample produced for an otherwise-admissible hour whose AQI of 999
exceeds the cap of `inpW`. -/
noncomputable def aqiFailHP (t : ℤ) : HourPoint :=
  ⟨t, false, some 70, some 100, some 0, some 999, 0, true, true, true, true,
    true, false⟩

/-- Strictly increasing sample timestamps (the spec's precondition that the
provider rows form an ordered hourly sequence). -/
def SortedHours (hs : List HourPoint) : Prop :=
  hs.Pairwise (fun a b => a.dt_local < b.dt_local)

/-- Maximality of a half-open interval against the sample sequence `L`:
every sample inside `[s, e)` is admissible, the sample immediately before a
sample at `s` is not admissible, and the first sample at or after `e`
(whether it is the head or follows a sample before `e`) is not admissible. -/
def IntervalOkOverall (L : List HourPoint) (se : ℤ × ℤ) : Prop :=
  (∀ p ∈ L, se.1 ≤ p.dt_local → p.dt_local < se.2 → p.is_good = true) ∧
  List.Chain' (fun x y => y.dt_local = se.1 → x.is_good = false) L ∧
  (∀ h0 ∈ L.head?, se.2 ≤ h0.dt_local → h0.is_good = false) ∧
  List.Chain' (fun x y =>
    x.dt_local < se.2 → se.2 ≤ y.dt_local → y.is_good = false) L

/-- Day-bucket variant of interval maximality: the adjacent samples may
instead lie on a local day different from the bucket's day `d` (the
day-boundary splits of the daily loop). -/
def IntervalOkDaily (L : List HourPoint) (d : ℤ) (se : ℤ × ℤ) : Prop :=
  (∀ p ∈ L, se.1 ≤ p.dt_local → p.dt_local < se.2 → p.is_good = true) ∧
  List.Chain' (fun x y => y.dt_local = se.1 →
    x.is_good = false ∨ dayOf x.dt_local ≠ d) L ∧
  (∀ h0 ∈ L.head?, se.2 ≤ h0.dt_local →
    (h0.is_good = false ∨ dayOf h0.dt_local ≠ d)) ∧
  List.Chain' (fun x y => x.dt_local < se.2 → se.2 ≤ y.dt_local →
    y.is_good = false ∨ dayOf y.dt_local ≠ d) L

/-- The scan state `some s` describes an admissible run open since `s`:
`L` splits into a prefix and a nonempty admissible suffix starting at wall
time `s`, with the sample before the suffix (if any) non-admissible. -/
def OpenRun (L : List HourPoint) (s : ℤ) : Prop :=
  ∃ L₁ R, L = L₁ ++ R ∧ R ≠ [] ∧ (∀ h0 ∈ R.head?, h0.dt_local = s) ∧
    (∀ p ∈ R, p.is_good = true) ∧ (∀ x ∈ L₁.getLast?, x.is_good = false)

/-- Daily-loop variant of `OpenRun`: the open run additionally lies entirely
on the local day `d`, and the sample before it is non-admissible or on a
different local day. -/
def OpenDayRun (L : List HourPoint) (st : ℤ) (d : ℤ) : Prop :=
  ∃ L₁ R, L = L₁ ++ R ∧ R ≠ [] ∧ (∀ h0 ∈ R.head?, h0.dt_local = st) ∧
    (∀ p ∈ R, p.is_good = true ∧ dayOf p.dt_local = d) ∧
    (∀ x ∈ L₁.getLast?, x.is_good = false ∨ dayOf x.dt_local ≠ d)

/-- Soundness of the interval buckets built so far: every stored interval is
day-maximal against the processed prefix, is nonempty, and ends no later than
the last processed sample. -/
def IntsSound (L : List HourPoint) (ints : List (ℤ × List (ℤ × ℤ))) : Prop :=
  ∀ dl ∈ ints, ∀ se ∈ dl.2, IntervalOkDaily L dl.1 se ∧ se.1 < se.2 ∧
    (∃ x ∈ L.getLast?, se.2 ≤ x.dt_local)

/-- Loop invariant of the daily grouping fold, relating the state to the
processed prefix `pre`. -/
def DailyInv (pre : List HourPoint) (s : DayState) : Prop :=
  ∃ plast, pre.getLast? = some plast ∧
    s.last = some plast.dt_local ∧
    s.cur = dayOf plast.dt_local ∧
    (∀ k, hasKey s.chart k = true ↔ ∃ p ∈ pre, dayOf p.dt_local = k) ∧
    (∀ k, hasKey s.ints k = hasKey s.chart k) ∧
    (match s.start with
     | none => plast.is_good = false
     | some st => OpenDayRun pre st s.cur) ∧
    IntsSound pre s.ints

/-- An interval `v` is recorded in the bucket of day `d`. -/
def InBucket (m : List (ℤ × List (ℤ × ℤ))) (d : ℤ) (v : ℤ × ℤ) : Prop :=
  ∃ l, (d, l) ∈ m ∧ v ∈ l

theorem ftoc_some (x : ℝ) : ftoc (some x) = some ((x - 32) * 5 / 9) := rfl

theorem magnusVP_le_magnusVP {a b : ℝ}
    (h : (17.62 * a) / (243.12 + a) ≤ (17.62 * b) / (243.12 + b)) :
    magnusVP a ≤ magnusVP b := by
  unfold magnusVP
  have := Real.exp_le_exp.mpr h
  nlinarith [Real.exp_pos ((17.62 * a) / (243.12 + a))]

theorem magnusVP_lt_magnusVP {a b : ℝ}
    (h : (17.62 * a) / (243.12 + a) < (17.62 * b) / (243.12 + b)) :
    magnusVP a < magnusVP b := by
  unfold magnusVP
  have := Real.exp_lt_exp.mpr h
  nlinarith [Real.exp_pos ((17.62 * a) / (243.12 + a))]

/-- C5: for all inputs, `calculate_rh` returns either absent or a value in
`[0, 100]`; it returns absent exactly when an input temperature is absent or
the saturation vapor pressure `es` is nonpositive (over the reals `es` is
always positive, so only absent inputs yield absence); being a total function,
it never produces a numeric error. -/
theorem C5_calculate_rh_bounds (temp_c dew_point_c : Option ℝ) :
    (calculate_rh temp_c dew_point_c = none ∨
      ∃ r, calculate_rh temp_c dew_point_c = some r ∧ 0 ≤ r ∧ r ≤ 100) ∧
    (calculate_rh temp_c dew_point_c = none ↔
      temp_c = none ∨ dew_point_c = none ∨
        ∃ t, temp_c = some t ∧ magnusVP t ≤ 0) := by
  match temp_c, dew_point_c with
  | none, none => exact ⟨Or.inl rfl, by simp [calculate_rh]⟩
  | none, some d => exact ⟨Or.inl rfl, by simp [calculate_rh]⟩
  | some t, none => exact ⟨Or.inl rfl, by simp [calculate_rh]⟩
  | some t, some d =>
    rw [calculate_rh_some]
    constructor
    · refine Or.inr ⟨_, rfl, ?_, min_le_right _ _⟩
      exact le_min (le_max_right _ _) (by norm_num)
    · simp only [reduceCtorEq, Option.some.injEq, false_iff, not_or, not_exists, not_and]
      refine ⟨by simp, by simp, ?_⟩
      intro x hx
      rw [← hx]
      exact not_le.mpr (magnusVP_pos t)

/-- C6 counterexample: with the indoor reference fixed at 69 °F, the dew points
−500 °F ≤ −300 °F give a *larger* predicted indoor RH at −500 °F (whose
Celsius value lies below the Magnus pole −243.12 °C) than at −300 °F, so
`calculate_rh` is not monotone in the dew point over all inputs. -/
theorem C6_counterexample :
    ((-500:ℝ) ≤ -300) ∧
    ¬ ((calculate_rh (ftoc (some 69)) (ftoc (some (-500)))).getD 0
        ≤ (calculate_rh (ftoc (some 69)) (ftoc (some (-300)))).getD 0) := by
  refine ⟨by norm_num, ?_⟩
  rw [ftoc_some, ftoc_some, ftoc_some, calculate_rh_some, calculate_rh_some]
  have hes := magnusVP_pos (((69:ℝ) - 32) * 5 / 9)
  have h1 : magnusVP (((69:ℝ) - 32) * 5 / 9) ≤ magnusVP ((((-500):ℝ) - 32) * 5 / 9) := by
    apply magnusVP_le_magnusVP
    norm_num
  have h2 : magnusVP ((((-300):ℝ) - 32) * 5 / 9) < magnusVP (((69:ℝ) - 32) * 5 / 9) := by
    apply magnusVP_lt_magnusVP
    norm_num
  have hr1 : min (max (magnusVP ((((-500):ℝ) - 32) * 5 / 9)
      / magnusVP (((69:ℝ) - 32) * 5 / 9) * 100) 0) 100 = 100 := by
    apply min_eq_right
    refine le_max_iff.mpr (Or.inl ?_)
    rw [ge_iff_le.symm]
    have : (1:ℝ) ≤ magnusVP ((((-500):ℝ) - 32) * 5 / 9)
        / magnusVP (((69:ℝ) - 32) * 5 / 9) := (one_le_div hes).mpr h1
    nlinarith
  have hq : magnusVP ((((-300):ℝ) - 32) * 5 / 9)
      / magnusVP (((69:ℝ) - 32) * 5 / 9) < 1 := (div_lt_one hes).mpr h2
  have hqpos : 0 < magnusVP ((((-300):ℝ) - 32) * 5 / 9)
      / magnusVP (((69:ℝ) - 32) * 5 / 9) :=
    div_pos (magnusVP_pos _) hes
  have hr2 : min (max (magnusVP ((((-300):ℝ) - 32) * 5 / 9)
      / magnusVP (((69:ℝ) - 32) * 5 / 9) * 100) 0) 100 < 100 := by
    have hm : max (magnusVP ((((-300):ℝ) - 32) * 5 / 9)
        / magnusVP (((69:ℝ) - 32) * 5 / 9) * 100) 0
        = magnusVP ((((-300):ℝ) - 32) * 5 / 9)
        / magnusVP (((69:ℝ) - 32) * 5 / 9) * 100 :=
      max_eq_left (by nlinarith)
    rw [hm]
    apply min_lt_of_left_lt
    nlinarith
  simp only [Option.getD_some]
  rw [hr1]
  exact not_le.mpr hr2

/-- C6 amended: with the indoor reference fixed, `calculate_rh` (hence
`predictIndoorRH`) is monotonically increasing in the outdoor dew point as
long as the dew points converted to Celsius stay strictly above the Magnus
pole −243.12 °C (equivalently, above −405.616 °F). -/
theorem C6_rh_monotone_above_pole (ref d1 d2 : ℝ)
    (hpole : (-243.12:ℝ) < (d1 - 32) * 5 / 9) (h12 : d1 ≤ d2) :
    (calculate_rh (ftoc (some ref)) (ftoc (some d1))).getD 0
      ≤ (calculate_rh (ftoc (some ref)) (ftoc (some d2))).getD 0 := by
  rw [ftoc_some, ftoc_some, ftoc_some, calculate_rh_some, calculate_rh_some]
  have hc : ((d1 - 32) * 5 / 9 : ℝ) ≤ (d2 - 32) * 5 / 9 := by linarith
  have he : magnusVP ((d1 - 32) * 5 / 9) ≤ magnusVP ((d2 - 32) * 5 / 9) :=
    magnusVP_mono hpole hc
  have hes := magnusVP_pos (((ref:ℝ) - 32) * 5 / 9)
  simp only [Option.getD_some]
  have hdiv : magnusVP ((d1 - 32) * 5 / 9) / magnusVP ((ref - 32) * 5 / 9) * 100
      ≤ magnusVP ((d2 - 32) * 5 / 9) / magnusVP ((ref - 32) * 5 / 9) * 100 := by
    have := (div_le_div_iff_of_pos_right hes).mpr he
    nlinarith
  exact min_le_min (max_le_max hdiv le_rfl) le_rfl

theorem evalHour_none (inp : WeatherInputs) (ref_c : ℝ) (aq : Bool)
    (dict : ℤ → Option ℝ) (t : ℤ) (temp_f dew_f precip_v : Option ℝ) (pp : ℝ)
    (h : temp_f = none ∨ dew_f = none ∨ precip_v = none) :
    evalHour inp ref_c aq dict t temp_f dew_f precip_v pp =
      ⟨t, false, temp_f, none, precip_v, dict t, pp,
        false, false, false, false, false, false⟩ := by
  match temp_f, dew_f, precip_v with
  | none, _, _ => rfl
  | some _, none, _ => rfl
  | some _, some _, none => rfl
  | some _, some _, some _ => simp at h

theorem evalHour_some (inp : WeatherInputs) (ref_c : ℝ) (aq : Bool)
    (dict : ℤ → Option ℝ) (t : ℤ) (tf df pr : ℝ) (pp : ℝ) :
    evalHour inp ref_c aq dict t (some tf) (some df) (some pr) pp =
      ⟨t,
        (decide ((inp.min_temp : ℝ) ≤ tf ∧ tf ≤ (inp.max_temp : ℝ)) &&
          (match calculate_rh (some ref_c) (ftoc (some df)) with
            | some r => decide ((inp.min_rh : ℝ) ≤ r ∧ r ≤ (inp.max_rh : ℝ))
            | none => false) &&
          decide (pr < 0.1) &&
          decide (pp ≤ (inp.max_precip_prob : ℝ)) &&
          (if aq then
            match dict t with
            | some a => decide (a ≤ (inp.max_aqi : ℝ))
            | none => false
          else true)),
        some tf, calculate_rh (some ref_c) (ftoc (some df)), some pr, dict t, pp,
        true,
        decide ((inp.min_temp : ℝ) ≤ tf ∧ tf ≤ (inp.max_temp : ℝ)),
        (match calculate_rh (some ref_c) (ftoc (some df)) with
          | some r => decide ((inp.min_rh : ℝ) ≤ r ∧ r ≤ (inp.max_rh : ℝ))
          | none => false),
        decide (pr < 0.1),
        decide (pp ≤ (inp.max_precip_prob : ℝ)),
        (if aq then
          match dict t with
          | some a => decide (a ≤ (inp.max_aqi : ℝ))
          | none => false
        else true)⟩ := rfl

/-- C1: per-hour admissibility is the pure conjunction of `primaryDataOk` and
the five checks; when `primaryDataOk` fails the hour is not admissible, the
predicted RH is absent and all five checks are false; each check is exactly
its bound on the underlying value, so moving any single value outside its
bound (all else fixed) makes its check, and hence `isAdmissible`, false. -/
theorem C1_admissibility_conjunction (inp : WeatherInputs) (ref_c : ℝ)
    (aq : Bool) (dict : ℤ → Option ℝ) (t : ℤ)
    (temp_f dew_f precip_v : Option ℝ) (pp : ℝ) :
    ((evalHour inp ref_c aq dict t temp_f dew_f precip_v pp).is_good = true ↔
      ((evalHour inp ref_c aq dict t temp_f dew_f precip_v pp).primary_data_ok = true ∧
       (evalHour inp ref_c aq dict t temp_f dew_f precip_v pp).temp_ok = true ∧
       (evalHour inp ref_c aq dict t temp_f dew_f precip_v pp).rh_ok = true ∧
       (evalHour inp ref_c aq dict t temp_f dew_f precip_v pp).precip_ok = true ∧
       (evalHour inp ref_c aq dict t temp_f dew_f precip_v pp).precip_prob_ok = true ∧
       (evalHour inp ref_c aq dict t temp_f dew_f precip_v pp).aqi_ok = true)) ∧
    ((evalHour inp ref_c aq dict t temp_f dew_f precip_v pp).primary_data_ok = true ↔
      (temp_f ≠ none ∧ dew_f ≠ none ∧ precip_v ≠ none)) ∧
    ((evalHour inp ref_c aq dict t temp_f dew_f precip_v pp).primary_data_ok = false →
      (evalHour inp ref_c aq dict t temp_f dew_f precip_v pp).is_good = false ∧
      (evalHour inp ref_c aq dict t temp_f dew_f precip_v pp).rh_in = none ∧
      (evalHour inp ref_c aq dict t temp_f dew_f precip_v pp).temp_ok = false ∧
      (evalHour inp ref_c aq dict t temp_f dew_f precip_v pp).rh_ok = false ∧
      (evalHour inp ref_c aq dict t temp_f dew_f precip_v pp).precip_ok = false ∧
      (evalHour inp ref_c aq dict t temp_f dew_f precip_v pp).precip_prob_ok = false ∧
      (evalHour inp ref_c aq dict t temp_f dew_f precip_v pp).aqi_ok = false) ∧
    (∀ tf df pr, temp_f = some tf → dew_f = some df → precip_v = some pr →
      ((evalHour inp ref_c aq dict t temp_f dew_f precip_v pp).temp_ok = true ↔
        ((inp.min_temp : ℝ) ≤ tf ∧ tf ≤ (inp.max_temp : ℝ))) ∧
      ((evalHour inp ref_c aq dict t temp_f dew_f precip_v pp).rh_ok = true ↔
        (∃ r, calculate_rh (some ref_c) (ftoc (some df)) = some r ∧
          (inp.min_rh : ℝ) ≤ r ∧ r ≤ (inp.max_rh : ℝ))) ∧
      ((evalHour inp ref_c aq dict t temp_f dew_f precip_v pp).precip_ok = true ↔
        pr < 0.1) ∧
      ((evalHour inp ref_c aq dict t temp_f dew_f precip_v pp).precip_prob_ok = true ↔
        pp ≤ (inp.max_precip_prob : ℝ)) ∧
      ((evalHour inp ref_c aq dict t temp_f dew_f precip_v pp).aqi_ok = true ↔
        (aq = true → ∃ a, dict t = some a ∧ a ≤ (inp.max_aqi : ℝ)))) ∧
    (∀ tf', ¬ ((inp.min_temp : ℝ) ≤ tf' ∧ tf' ≤ (inp.max_temp : ℝ)) →
      (evalHour inp ref_c aq dict t (some tf') dew_f precip_v pp).is_good = false) ∧
    (∀ pr', ¬ (pr' < 0.1) →
      (evalHour inp ref_c aq dict t temp_f dew_f (some pr') pp).is_good = false) ∧
    (∀ pp', ¬ (pp' ≤ (inp.max_precip_prob : ℝ)) →
      (evalHour inp ref_c aq dict t temp_f dew_f precip_v pp').is_good = false) ∧
    (∀ df', (∀ r, calculate_rh (some ref_c) (ftoc (some df')) = some r →
        ¬ ((inp.min_rh : ℝ) ≤ r ∧ r ≤ (inp.max_rh : ℝ))) →
      (evalHour inp ref_c aq dict t temp_f (some df') precip_v pp).is_good = false) ∧
    (aq = true → (∀ a, dict t = some a → ¬ (a ≤ (inp.max_aqi : ℝ))) →
      (evalHour inp ref_c aq dict t temp_f dew_f precip_v pp).is_good = false) := by
  have main : ∀ (tfo dfo pro : Option ℝ) (ppv : ℝ),
      ((evalHour inp ref_c aq dict t tfo dfo pro ppv).is_good = true ↔
        ((evalHour inp ref_c aq dict t tfo dfo pro ppv).primary_data_ok = true ∧
         (evalHour inp ref_c aq dict t tfo dfo pro ppv).temp_ok = true ∧
         (evalHour inp ref_c aq dict t tfo dfo pro ppv).rh_ok = true ∧
         (evalHour inp ref_c aq dict t tfo dfo pro ppv).precip_ok = true ∧
         (evalHour inp ref_c aq dict t tfo dfo pro ppv).precip_prob_ok = true ∧
         (evalHour inp ref_c aq dict t tfo dfo pro ppv).aqi_ok = true)) := by
    intro tfo dfo pro ppv
    match tfo, dfo, pro with
    | none, _, _ => simp [evalHour_none inp ref_c aq dict t none _ _ ppv (Or.inl rfl)]
    | some tf, none, _ =>
      simp [evalHour_none inp ref_c aq dict t _ none _ ppv (Or.inr (Or.inl rfl))]
    | some tf, some df, none =>
      simp [evalHour_none inp ref_c aq dict t _ _ none ppv (Or.inr (Or.inr rfl))]
    | some tf, some df, some pr =>
      rw [evalHour_some]
      simp only [Bool.and_eq_true, true_and]
      tauto
  refine ⟨main _ _ _ _, ?_, ?_, ?_, ?_, ?_, ?_, ?_, ?_⟩
  · match temp_f, dew_f, precip_v with
    | none, _, _ => simp [evalHour_none inp ref_c aq dict t none _ _ pp (Or.inl rfl)]
    | some tf, none, _ =>
      simp [evalHour_none inp ref_c aq dict t _ none _ pp (Or.inr (Or.inl rfl))]
    | some tf, some df, none =>
      simp [evalHour_none inp ref_c aq dict t _ _ none pp (Or.inr (Or.inr rfl))]
    | some tf, some df, some pr => rw [evalHour_some]; simp
  · intro hpf
    match temp_f, dew_f, precip_v with
    | none, _, _ => simp [evalHour_none inp ref_c aq dict t none _ _ pp (Or.inl rfl)]
    | some tf, none, _ =>
      simp [evalHour_none inp ref_c aq dict t _ none _ pp (Or.inr (Or.inl rfl))]
    | some tf, some df, none =>
      simp [evalHour_none inp ref_c aq dict t _ _ none pp (Or.inr (Or.inr rfl))]
    | some tf, some df, some pr => rw [evalHour_some] at hpf ⊢; simp at hpf
  · intro tf df pr htf hdf hpr
    subst htf; subst hdf; subst hpr
    rw [evalHour_some]
    refine ⟨by simp, ?_, by simp, by simp, ?_⟩
    · cases hrh : calculate_rh (some ref_c) (ftoc (some df)) with
      | none => simp [hrh]
      | some r => simp [hrh]
    · cases aq with
      | false => simp
      | true =>
        cases ha : dict t with
        | none => simp [ha]
        | some a => simp [ha]
  · intro tf' hout
    refine Bool.eq_false_iff.mpr (fun hgood => ?_)
    rcases (main (some tf') dew_f precip_v pp).mp hgood with ⟨_, htempok, _⟩
    match dew_f, precip_v with
      | none, _ =>
        rw [evalHour_none inp ref_c aq dict t _ none _ pp (Or.inr (Or.inl rfl))] at htempok
        simp at htempok
      | some df, none =>
        rw [evalHour_none inp ref_c aq dict t _ _ none pp (Or.inr (Or.inr rfl))] at htempok
        simp at htempok
      | some df, some pr =>
        rw [evalHour_some] at htempok
        simp only [decide_eq_true_eq] at htempok
        exact hout htempok
  · intro pr' hout
    refine Bool.eq_false_iff.mpr (fun hgood => ?_)
    rcases (main temp_f dew_f (some pr') pp).mp hgood with ⟨_, _, _, hprecipok, _⟩
    match temp_f, dew_f with
      | none, _ =>
        rw [evalHour_none inp ref_c aq dict t none _ _ pp (Or.inl rfl)] at hprecipok
        simp at hprecipok
      | some tf, none =>
        rw [evalHour_none inp ref_c aq dict t _ none _ pp (Or.inr (Or.inl rfl))] at hprecipok
        simp at hprecipok
      | some tf, some df =>
        rw [evalHour_some] at hprecipok
        simp only [decide_eq_true_eq] at hprecipok
        exact hout hprecipok
  · intro pp' hout
    refine Bool.eq_false_iff.mpr (fun hgood => ?_)
    rcases (main temp_f dew_f precip_v pp').mp hgood with ⟨_, _, _, _, hppok, _⟩
    match temp_f, dew_f, precip_v with
      | none, _, _ =>
        rw [evalHour_none inp ref_c aq dict t none _ _ pp' (Or.inl rfl)] at hppok
        simp at hppok
      | some tf, none, _ =>
        rw [evalHour_none inp ref_c aq dict t _ none _ pp' (Or.inr (Or.inl rfl))] at hppok
        simp at hppok
      | some tf, some df, none =>
        rw [evalHour_none inp ref_c aq dict t _ _ none pp' (Or.inr (Or.inr rfl))] at hppok
        simp at hppok
      | some tf, some df, some pr =>
        rw [evalHour_some] at hppok
        simp only [decide_eq_true_eq] at hppok
        exact hout hppok
  · intro df' hout
    refine Bool.eq_false_iff.mpr (fun hgood => ?_)
    rcases (main temp_f (some df') precip_v pp).mp hgood with ⟨_, _, hrhok, _⟩
    match temp_f, precip_v with
      | none, _ =>
        rw [evalHour_none inp ref_c aq dict t none _ _ pp (Or.inl rfl)] at hrhok
        simp at hrhok
      | some tf, none =>
        rw [evalHour_none inp ref_c aq dict t _ _ none pp (Or.inr (Or.inr rfl))] at hrhok
        simp at hrhok
      | some tf, some pr =>
        rw [evalHour_some] at hrhok
        cases hrh : calculate_rh (some ref_c) (ftoc (some df')) with
        | none => rw [hrh] at hrhok; simp at hrhok
        | some r =>
          rw [hrh] at hrhok
          simp only [decide_eq_true_eq] at hrhok
          exact hout r hrh hrhok
  · intro haq hout
    subst haq
    refine Bool.eq_false_iff.mpr (fun hgood => ?_)
    rcases (main temp_f dew_f precip_v pp).mp hgood with ⟨_, _, _, _, _, haqiok⟩
    match temp_f, dew_f, precip_v with
      | none, _, _ =>
        rw [evalHour_none inp ref_c true dict t none _ _ pp (Or.inl rfl)] at haqiok
        simp at haqiok
      | some tf, none, _ =>
        rw [evalHour_none inp ref_c true dict t _ none _ pp (Or.inr (Or.inl rfl))] at haqiok
        simp at haqiok
      | some tf, some df, none =>
        rw [evalHour_none inp ref_c true dict t _ _ none pp (Or.inr (Or.inr rfl))] at haqiok
        simp at haqiok
      | some tf, some df, some pr =>
        rw [evalHour_some] at haqiok
        cases ha : dict t with
        | none => rw [if_pos rfl, ha] at haqiok; simp at haqiok
        | some a =>
          rw [if_pos rfl, ha] at haqiok
          simp only [decide_eq_true_eq] at haqiok
          exact hout a ha haqiok

/-- Witness for the amended C6 monotonicity at 69 °F reference and dew points
50 °F ≤ 60 °F. -/
theorem C6_rh_monotone_witness :
    ((-243.12:ℝ) < ((50:ℝ) - 32) * 5 / 9) ∧ ((50:ℝ) ≤ 60) ∧
    (calculate_rh (ftoc (some 69)) (ftoc (some 50))).getD 0
      ≤ (calculate_rh (ftoc (some 69)) (ftoc (some 60))).getD 0 :=
  ⟨by norm_num, by norm_num,
    C6_rh_monotone_above_pole 69 50 60 (by norm_num) (by norm_num)⟩

theorem find_eq_of_hourly_ok {w : Option WeatherData} {a : Option AqiData}
    {inp : WeatherInputs} {hs : List HourPoint} {times : List ℤ} {δ : ℤ}
    (hh : hourlyData w a inp = .ok hs) (hw : weatherTimes w = some times) :
    find_optimal_periods w a inp δ =
      .ok ⟨overallPeriods times δ hs, (dailyPhase hs).1, (dailyPhase hs).2⟩ := by
  unfold find_optimal_periods
  rw [hh, hw]

theorem find_eq_of_hourly_err {w : Option WeatherData} {a : Option AqiData}
    {inp : WeatherInputs} {e : DataError} {δ : ℤ}
    (hh : hourlyData w a inp = .error e) :
    find_optimal_periods w a inp δ = .error e := by
  unfold find_optimal_periods
  rw [hh]

theorem hourlyData_unfold (wh : WeatherHourly) (a : Option AqiData)
    (inp : WeatherInputs) (times : List ℤ) (temps dews : List (Option ℝ))
    (ht : wh.time = some times) (htm : wh.temperature_2m = some temps)
    (hdw : wh.dew_point_2m = some dews) :
    hourlyData (some ⟨some wh⟩) a inp =
      buildHourly inp (((inp.indoor_ref_temp : ℝ) - 32) * 5 / 9)
        (aqiAvailability a).1 (aqiAvailability a).2 temps dews
        (wh.precipitation.getD (List.replicate times.length (some (0:ℝ))))
        (wh.precipitation_probability.getD (List.replicate times.length (0:ℝ)))
        times 0 := by
  simp only [hourlyData, weatherTimes, ht, htm, hdw, ftoc_some]

theorem buildHourly_length_ok (inp : WeatherInputs) (ref : ℝ) (aq : Bool)
    (dict : ℤ → Option ℝ) (temps dews precs : List (Option ℝ)) (pps : List ℝ) :
    ∀ (times : List ℤ) (i : ℕ), i + times.length ≤ temps.length →
      i + times.length ≤ dews.length → i + times.length ≤ precs.length →
      ∃ hs, buildHourly inp ref aq dict temps dews precs pps times i = .ok hs := by
  intro times
  induction times with
  | nil => intro i _ _ _; exact ⟨[], rfl⟩
  | cons t rest ih =>
    intro i h1 h2 h3
    have hi1 : i < temps.length := by simp at h1; omega
    have hi2 : i < dews.length := by simp at h2; omega
    have hi3 : i < precs.length := by simp at h3; omega
    obtain ⟨hs, hhs⟩ := ih (i + 1) (by simp at h1 ⊢; omega) (by simp at h2 ⊢; omega)
      (by simp at h3 ⊢; omega)
    refine ⟨evalHour inp ref aq dict t (temps.get ⟨i, hi1⟩) (dews.get ⟨i, hi2⟩)
      (precs.get ⟨i, hi3⟩) ((pps.get? i).getD 0) :: hs, ?_⟩
    unfold buildHourly readHour
    rw [List.get?_eq_get hi1, List.get?_eq_get hi2, List.get?_eq_get hi3, hhs]

theorem buildHourly_length_err (inp : WeatherInputs) (ref : ℝ) (aq : Bool)
    (dict : ℤ → Option ℝ) (temps dews precs : List (Option ℝ)) (pps : List ℝ) :
    ∀ (times : List ℤ) (i : ℕ), i ≤ temps.length → i ≤ dews.length →
      i ≤ precs.length →
      (temps.length < i + times.length ∨ dews.length < i + times.length ∨
        precs.length < i + times.length) →
      buildHourly inp ref aq dict temps dews precs pps times i =
        .error .outOfRange := by
  intro times
  induction times with
  | nil => intro i h1 h2 h3 h; simp at h; omega
  | cons t rest ih =>
    intro i h1 h2 h3 h
    by_cases hi1 : i < temps.length
    · by_cases hi2 : i < dews.length
      · by_cases hi3 : i < precs.length
        · have hrec := ih (i + 1) hi1 hi2 hi3 (by simp at h ⊢; omega)
          unfold buildHourly readHour
          rw [List.get?_eq_get hi1, List.get?_eq_get hi2, List.get?_eq_get hi3,
            hrec]
        · have hnone : precs.get? i = none := List.get?_eq_none.mpr (by omega)
          unfold buildHourly readHour
          rw [hnone]
          rcases h1.lt_or_eq with hlt | heq
          · rw [List.get?_eq_get hlt]
            rcases h2.lt_or_eq with hlt2 | heq2
            · rw [List.get?_eq_get hlt2]
            · rw [List.get?_eq_none.mpr (by omega)]
          · rw [List.get?_eq_none.mpr (by omega)]
      · have hnone : dews.get? i = none := List.get?_eq_none.mpr (by omega)
        unfold buildHourly readHour
        rw [hnone]
        rcases h1.lt_or_eq with hlt | heq
        · rw [List.get?_eq_get hlt]
        · rw [List.get?_eq_none.mpr (by omega)]
    · have hnone : temps.get? i = none := List.get?_eq_none.mpr (by omega)
      unfold buildHourly readHour
      rw [hnone]

/-- C9: a weather payload lacking the timestamp axis fails the guard of line
176 (in the source that error path itself raises, since it constructs a
`ForecastResult` with an undefined `info` field); one lacking the temperature
or dew-point array raises a `KeyError` at lines 181–182.  Either way
`find_optimal_periods` terminates with an error before any per-hour
processing, and the error result carries no partial output. -/
theorem C9_structural_failure (w : Option WeatherData) (a : Option AqiData)
    (inp : WeatherInputs) (δ : ℤ) :
    (weatherTimes w = none →
      find_optimal_periods w a inp δ = .error DataError.badPayload) ∧
    (∀ wd wh ts, w = some wd → wd.hourly = some wh → wh.time = some ts →
      (wh.temperature_2m = none ∨ wh.dew_point_2m = none) →
      find_optimal_periods w a inp δ = .error DataError.missingArray) := by
  constructor
  · intro hw
    have hh : hourlyData w a inp = .error DataError.badPayload := by
      unfold hourlyData
      rw [hw]
    exact find_eq_of_hourly_err hh
  · intro wd wh ts hw hwd ht hmiss
    subst hw
    have hh : hourlyData (some wd) a inp = .error DataError.missingArray := by
      simp only [hourlyData, weatherTimes, hwd, ht]
      rcases hmiss with hm | hm
      · rw [hm]
      · rw [hm]
        cases wh.temperature_2m with
        | none => rfl
        | some l => rfl
    exact find_eq_of_hourly_err hh

/-- Witness for C9 on the concrete malformed payloads: missing `'time'`,
missing temperature array, missing dew-point array. -/
theorem C9_structural_failure_witness :
    find_optimal_periods w9c none inpW 0 = .error DataError.badPayload ∧
    find_optimal_periods w9d none inpW 0 = .error DataError.missingArray ∧
    find_optimal_periods w9e none inpW 0 = .error DataError.missingArray :=
  ⟨(C9_structural_failure w9c none inpW 0).1 rfl,
   (C9_structural_failure w9d none inpW 0).2 _ _ _ rfl rfl rfl (Or.inl rfl),
   (C9_structural_failure w9e none inpW 0).2 _ _ _ rfl rfl rfl (Or.inr rfl)⟩

/-- C10: the per-hour loop indexes the temperature, dew-point and (when
present) precipitation arrays without a bounds guard, so the evaluation is
total exactly under the precondition that each is at least as long as the
timestamp axis (the probability array, read through a guarded access, may be
arbitrarily short); any of the three being shorter is an out-of-range
failure. -/
theorem C10_array_length_safety (wh : WeatherHourly) (times : List ℤ)
    (temps dews : List (Option ℝ)) (a : Option AqiData) (inp : WeatherInputs)
    (δ : ℤ) (ht : wh.time = some times) (htm : wh.temperature_2m = some temps)
    (hdw : wh.dew_point_2m = some dews) :
    (times.length ≤ temps.length → times.length ≤ dews.length →
      (∀ pl, wh.precipitation = some pl → times.length ≤ pl.length) →
      ∃ r, find_optimal_periods (some ⟨some wh⟩) a inp δ = .ok r) ∧
    (temps.length < times.length →
      find_optimal_periods (some ⟨some wh⟩) a inp δ = .error DataError.outOfRange) ∧
    (dews.length < times.length →
      find_optimal_periods (some ⟨some wh⟩) a inp δ = .error DataError.outOfRange) ∧
    (∀ pl, wh.precipitation = some pl → pl.length < times.length →
      find_optimal_periods (some ⟨some wh⟩) a inp δ = .error DataError.outOfRange) := by
  have hke : weatherTimes (some ⟨some wh⟩) = some times := by
    simp only [weatherTimes, ht]
  have hud := hourlyData_unfold wh a inp times temps dews ht htm hdw
  refine ⟨?_, ?_, ?_, ?_⟩
  · intro h1 h2 h3
    have hpre : times.length ≤
        (wh.precipitation.getD (List.replicate times.length (some (0:ℝ)))).length := by
      cases hp : wh.precipitation with
      | none => simp
      | some pl => simpa using h3 pl hp
    obtain ⟨hs, hhs⟩ := buildHourly_length_ok inp
      (((inp.indoor_ref_temp : ℝ) - 32) * 5 / 9) (aqiAvailability a).1
      (aqiAvailability a).2 temps dews
      (wh.precipitation.getD (List.replicate times.length (some (0:ℝ))))
      (wh.precipitation_probability.getD (List.replicate times.length (0:ℝ)))
      times 0 (by simpa using h1) (by simpa using h2) (by simpa using hpre)
    exact ⟨_, find_eq_of_hourly_ok (hud.trans hhs) hke⟩
  · intro h
    have herr := buildHourly_length_err inp
      (((inp.indoor_ref_temp : ℝ) - 32) * 5 / 9) (aqiAvailability a).1
      (aqiAvailability a).2 temps dews
      (wh.precipitation.getD (List.replicate times.length (some (0:ℝ))))
      (wh.precipitation_probability.getD (List.replicate times.length (0:ℝ)))
      times 0 (Nat.zero_le _) (Nat.zero_le _) (Nat.zero_le _)
      (Or.inl (by simpa using h))
    exact find_eq_of_hourly_err (hud.trans herr)
  · intro h
    have herr := buildHourly_length_err inp
      (((inp.indoor_ref_temp : ℝ) - 32) * 5 / 9) (aqiAvailability a).1
      (aqiAvailability a).2 temps dews
      (wh.precipitation.getD (List.replicate times.length (some (0:ℝ))))
      (wh.precipitation_probability.getD (List.replicate times.length (0:ℝ)))
      times 0 (Nat.zero_le _) (Nat.zero_le _) (Nat.zero_le _)
      (Or.inr (Or.inl (by simpa using h)))
    exact find_eq_of_hourly_err (hud.trans herr)
  · intro pl hp h
    have herr := buildHourly_length_err inp
      (((inp.indoor_ref_temp : ℝ) - 32) * 5 / 9) (aqiAvailability a).1
      (aqiAvailability a).2 temps dews
      (wh.precipitation.getD (List.replicate times.length (some (0:ℝ))))
      (wh.precipitation_probability.getD (List.replicate times.length (0:ℝ)))
      times 0 (Nat.zero_le _) (Nat.zero_le _) (Nat.zero_le _)
      (Or.inr (Or.inr (by rw [hp]; simpa using h)))
    exact find_eq_of_hourly_err (hud.trans herr)

/-- Witness for C10: the well-formed two-hour payload evaluates to a result,
and the payload whose temperature array is one element short fails with the
out-of-range error. -/
theorem C10_array_length_safety_witness :
    (∃ r, find_optimal_periods wC none inpW 0 = .ok r) ∧
    find_optimal_periods w10 none inpW 0 = .error DataError.outOfRange := by
  constructor
  · refine (C10_array_length_safety _ [0, 60] [some 70, some 70]
      [some 69, some 69] none inpW 0 rfl rfl rfl).1 (by simp) (by simp) ?_
    intro pl hp
    have h2 : pl = [some 0, some 0] := by
      have := Option.some.inj hp
      exact this.symm
    rw [h2]
    simp
  · exact (C10_array_length_safety _ [0, 60] [some 70]
      [some 69, some 69] none inpW 0 rfl rfl rfl).2.1 (by simp)

theorem calc_rh_refW : calculate_rh (some refW) (ftoc (some 69)) = some 100 := by
  rw [ftoc_some]
  have h : refW = ((69:ℝ) - 32) * 5 / 9 := by
    norm_num [refW, inpW]
  rw [h]
  exact calculate_rh_self _

theorem evalHour_goodW (dict : ℤ → Option ℝ) (t : ℤ) (hd : dict t = none) :
    evalHour inpW refW false dict t (some 70) (some 69) (some 0) 0 = goodHP t := by
  rw [evalHour_some, calc_rh_refW, hd]
  simp only [goodHP, HourPoint.mk.injEq, Bool.and_eq_true, decide_eq_true_eq,
    if_neg Bool.false_ne_true]
  norm_num [inpW]

theorem evalHour_badW (inp : WeatherInputs) (ref : ℝ) (aq : Bool)
    (dict : ℤ → Option ℝ) (t : ℤ) (hd : dict t = none) :
    evalHour inp ref aq dict t none (some 69) (some 0) 0 = badHP t := by
  rw [evalHour_none inp ref aq dict t none (some 69) (some 0) 0 (Or.inl rfl), hd]
  rfl

theorem evalHour_aqiFailW (dict : ℤ → Option ℝ) (t : ℤ)
    (hd : dict t = some 999) :
    evalHour inpW refW true dict t (some 70) (some 69) (some 0) 0 = aqiFailHP t := by
  rw [evalHour_some, calc_rh_refW, hd]
  simp only [aqiFailHP, HourPoint.mk.injEq, Bool.and_eq_true, decide_eq_true_eq,
    if_pos rfl]
  norm_num [inpW]

theorem hourlyData_wC : hourlyData wC none inpW = .ok [goodHP 0, goodHP 60] := by
  have h : hourlyData wC none inpW =
      .ok [evalHour inpW refW false noDict 0 (some 70) (some 69) (some 0) 0,
           evalHour inpW refW false noDict 60 (some 70) (some 69) (some 0) 0] := rfl
  rw [h, evalHour_goodW noDict 0 rfl, evalHour_goodW noDict 60 rfl]

theorem find_wC :
    find_optimal_periods wC none inpW 0 =
      .ok ⟨[(0, 120)], [(0, [goodHP 0, goodHP 60])], [(0, [(0, 120)])]⟩ := by
  rw [find_eq_of_hourly_ok hourlyData_wC rfl]
  have hover : overallPeriods [0, 60] 0 [goodHP 0, goodHP 60] = [(0, 120)] := by
    norm_num [overallPeriods, overallScan, goodHP]
  have hdaily : dailyPhase [goodHP 0, goodHP 60] =
      ([(0, [goodHP 0, goodHP 60])], [(0, [(0, 120)])]) := by
    norm_num [dailyPhase, dailyFinish, dayStep, hasKey, appendAt, addKey, goodHP,
      show dayOf 0 = 0 from rfl, show dayOf 60 = 0 from rfl]
  rw [hover, hdaily]

theorem aqiAvailability_false {a : Option AqiData}
    (h : (aqiAvailability a).1 = false) :
    aqiAvailability a = (false, fun _ => none) := by
  cases a with
  | none => rfl
  | some ad =>
    cases ad with
    | mk hourly =>
      cases hourly with
      | none => rfl
      | some ah =>
        cases ah with
        | mk time us =>
          cases time with
          | none => rfl
          | some ts =>
            cases us with
            | none => rfl
            | some vs =>
              simp only [aqiAvailability] at h ⊢
              by_cases hl : ts.length = vs.length
              · rw [if_pos hl] at h
                simp at h
              · rw [if_neg hl]

theorem aqiAvailability_true_iff (a : Option AqiData) :
    (aqiAvailability a).1 = true ↔
      ∃ ad ah ts vs, a = some ad ∧ ad.hourly = some ah ∧ ah.time = some ts ∧
        ah.us_aqi = some vs ∧ ts.length = vs.length := by
  cases a with
  | none => simp [aqiAvailability]
  | some ad =>
    cases ad with
    | mk hourly =>
      cases hourly with
      | none => simp [aqiAvailability]
      | some ah =>
        cases ah with
        | mk time us =>
          cases time with
          | none => simp [aqiAvailability]
          | some ts =>
            cases us with
            | none => simp [aqiAvailability]
            | some vs =>
              simp only [aqiAvailability]
              by_cases hl : ts.length = vs.length
              · rw [if_pos hl]
                simp [hl]
              · rw [if_neg hl]
                simp [hl]

theorem hourlyData_aqi_none {w : Option WeatherData} {a : Option AqiData}
    {inp : WeatherInputs} (h : (aqiAvailability a).1 = false) :
    hourlyData w a inp = hourlyData w none inp := by
  unfold hourlyData
  rw [aqiAvailability_false h]
  rfl

theorem find_aqi_none {w : Option WeatherData} {a : Option AqiData}
    {inp : WeatherInputs} {δ : ℤ} (h : (aqiAvailability a).1 = false) :
    find_optimal_periods w a inp δ = find_optimal_periods w none inp δ := by
  unfold find_optimal_periods
  rw [hourlyData_aqi_none h]

theorem evalHour_max_aqi (mt Mt mr Mr rt m₁ m₂ mp : ℤ) (ref : ℝ)
    (dict : ℤ → Option ℝ) (t : ℤ) (tfo dfo pro : Option ℝ) (pp : ℝ) :
    evalHour ⟨mt, Mt, mr, Mr, rt, m₁, mp⟩ ref false dict t tfo dfo pro pp =
      evalHour ⟨mt, Mt, mr, Mr, rt, m₂, mp⟩ ref false dict t tfo dfo pro pp := by
  match tfo, dfo, pro with
  | none, _, _ => rfl
  | some _, none, _ => rfl
  | some _, some _, none => rfl
  | some _, some _, some _ => rfl

theorem buildHourly_max_aqi (mt Mt mr Mr rt m₁ m₂ mp : ℤ) (ref : ℝ)
    (dict : ℤ → Option ℝ) (temps dews precs : List (Option ℝ)) (pps : List ℝ) :
    ∀ (times : List ℤ) (i : ℕ),
      buildHourly ⟨mt, Mt, mr, Mr, rt, m₁, mp⟩ ref false dict temps dews precs
        pps times i =
      buildHourly ⟨mt, Mt, mr, Mr, rt, m₂, mp⟩ ref false dict temps dews precs
        pps times i := by
  intro times
  induction times with
  | nil => intro i; rfl
  | cons t rest ih =>
    intro i
    unfold buildHourly readHour
    cases htf : temps.get? i with
    | none => rfl
    | some tf =>
      cases hdf : dews.get? i with
      | none => rfl
      | some df =>
        cases hpr : precs.get? i with
        | none => rfl
        | some pr =>
          dsimp only
          rw [evalHour_max_aqi mt Mt mr Mr rt m₁ m₂ mp ref dict t tf df pr
            ((pps.get? i).getD 0), ih (i + 1)]

theorem hourlyData_max_aqi (w : Option WeatherData) (a : Option AqiData)
    (mt Mt mr Mr rt m₁ m₂ mp : ℤ) (h : (aqiAvailability a).1 = false) :
    hourlyData w a ⟨mt, Mt, mr, Mr, rt, m₁, mp⟩ =
      hourlyData w a ⟨mt, Mt, mr, Mr, rt, m₂, mp⟩ := by
  cases w with
  | none => rfl
  | some wd =>
    cases wd with
    | mk hourly =>
      cases hourly with
      | none => rfl
      | some wh =>
        cases wh with
        | mk time temps dews precs pps =>
          cases time with
          | none => rfl
          | some ts =>
            cases temps with
            | none => rfl
            | some tl =>
              cases dews with
              | none => rfl
              | some dl =>
                unfold hourlyData weatherTimes
                rw [aqiAvailability_false h]
                exact buildHourly_max_aqi mt Mt mr Mr rt m₁ m₂ mp _ _ tl dl _ _
                  ts 0

theorem find_max_aqi (w : Option WeatherData) (a : Option AqiData) (δ : ℤ)
    (mt Mt mr Mr rt m₁ m₂ mp : ℤ) (h : (aqiAvailability a).1 = false) :
    find_optimal_periods w a ⟨mt, Mt, mr, Mr, rt, m₁, mp⟩ δ =
      find_optimal_periods w a ⟨mt, Mt, mr, Mr, rt, m₂, mp⟩ δ := by
  unfold find_optimal_periods
  rw [hourlyData_max_aqi w a mt Mt mr Mr rt m₁ m₂ mp h]

theorem hourlyData_wC_bad :
    hourlyData wC aqiBadC inpW = .ok [aqiFailHP 0, aqiFailHP 60] := by
  have h : hourlyData wC aqiBadC inpW =
      .ok [evalHour inpW refW true (aqiAvailability aqiBadC).2 0
             (some 70) (some 69) (some 0) 0,
           evalHour inpW refW true (aqiAvailability aqiBadC).2 60
             (some 70) (some 69) (some 0) 0] := rfl
  rw [h, evalHour_aqiFailW (aqiAvailability aqiBadC).2 0 rfl,
    evalHour_aqiFailW (aqiAvailability aqiBadC).2 60 rfl]

theorem find_wC_bad :
    find_optimal_periods wC aqiBadC inpW 0 =
      .ok ⟨[], [(0, [aqiFailHP 0, aqiFailHP 60])], [(0, [])]⟩ := by
  rw [find_eq_of_hourly_ok hourlyData_wC_bad rfl]
  have hover : overallPeriods [0, 60] 0 [aqiFailHP 0, aqiFailHP 60] = [] := by
    norm_num [overallPeriods, overallScan, aqiFailHP]
  have hdaily : dailyPhase [aqiFailHP 0, aqiFailHP 60] =
      ([(0, [aqiFailHP 0, aqiFailHP 60])], [(0, [])]) := by
    norm_num [dailyPhase, dailyFinish, dayStep, hasKey, appendAt, addKey, aqiFailHP,
      show dayOf 0 = 0 from rfl, show dayOf 60 = 0 from rfl]
  rw [hover, hdaily]

/-- C4: AQI is available only for a payload with hourly times and a
length-matched value array; when unavailable, `find_optimal_periods` behaves
exactly as with no AQI payload at all and is independent of `maxAQI`, and the
per-hour AQI check passes; when available, an hour with no matching entry or
with AQI above the cap fails the check.  On the concrete two-hour run, absent
AQI admits both hours while all-exceeding AQI admits none. -/
theorem C4_aqi_unavailability_neutrality (w : Option WeatherData)
    (a : Option AqiData) (inp : WeatherInputs) (δ : ℤ) :
    ((aqiAvailability a).1 = true ↔
      ∃ ad ah ts vs, a = some ad ∧ ad.hourly = some ah ∧ ah.time = some ts ∧
        ah.us_aqi = some vs ∧ ts.length = vs.length) ∧
    ((aqiAvailability a).1 = false →
      find_optimal_periods w a inp δ = find_optimal_periods w none inp δ) ∧
    ((aqiAvailability a).1 = false → ∀ mt Mt mr Mr rt m₁ m₂ mp : ℤ,
      find_optimal_periods w a ⟨mt, Mt, mr, Mr, rt, m₁, mp⟩ δ =
        find_optimal_periods w a ⟨mt, Mt, mr, Mr, rt, m₂, mp⟩ δ) ∧
    (∀ (ref : ℝ) (dict : ℤ → Option ℝ) (t : ℤ) (tf df pr pp : ℝ),
      (evalHour inp ref false dict t (some tf) (some df) (some pr) pp).aqi_ok
        = true) ∧
    (∀ (ref : ℝ) (dict : ℤ → Option ℝ) (t : ℤ) (tf df pr pp : ℝ),
      dict t = none →
      (evalHour inp ref true dict t (some tf) (some df) (some pr) pp).aqi_ok
        = false) ∧
    (∀ (ref : ℝ) (dict : ℤ → Option ℝ) (t : ℤ) (tf df pr pp av : ℝ),
      dict t = some av → (inp.max_aqi : ℝ) < av →
      (evalHour inp ref true dict t (some tf) (some df) (some pr) pp).aqi_ok
        = false) ∧
    ((∃ r, find_optimal_periods wC none inpW 0 = .ok r ∧
        r.periods = [(0, 120)]) ∧
     (∃ r, find_optimal_periods wC aqiBadC inpW 0 = .ok r ∧ r.periods = [])) := by
  refine ⟨aqiAvailability_true_iff a, fun h => find_aqi_none h,
    fun h mt Mt mr Mr rt m₁ m₂ mp => find_max_aqi w a δ mt Mt mr Mr rt m₁ m₂ mp h,
    ?_, ?_, ?_, ⟨⟨_, find_wC, rfl⟩, ⟨_, find_wC_bad, rfl⟩⟩⟩
  · intro ref dict t tf df pr pp
    rfl
  · intro ref dict t tf df pr pp hd
    rw [evalHour_some]
    simp only [hd]
    rfl
  · intro ref dict t tf df pr pp av hd hlt
    rw [evalHour_some]
    simp only [hd, if_pos rfl]
    exact decide_eq_false (not_le.mpr hlt)

/-- Witness for C4 at the concrete length-mismatched AQI payload: the run is
unchanged versus no AQI payload, and unchanged under a different `maxAQI`. -/
theorem C4_aqi_unavailability_witness :
    find_optimal_periods wC aqiMismatch inpW 0 =
      find_optimal_periods wC none inpW 0 ∧
    find_optimal_periods wC aqiMismatch ⟨67, 79, 0, 100, 69, 50, 10⟩ 0 =
      find_optimal_periods wC aqiMismatch ⟨67, 79, 0, 100, 69, 999, 10⟩ 0 :=
  ⟨(C4_aqi_unavailability_neutrality wC aqiMismatch inpW 0).2.1 rfl,
   (C4_aqi_unavailability_neutrality wC aqiMismatch inpW 0).2.2.1 rfl
     67 79 0 100 69 50 999 10⟩

/-- C8 counterexample: on the concrete payload `wP`, whose two timestamps
outrun its length-1 precipitation-probability array, the hour at position 1
gets probability `0.0` (not absent), its probability check passes, and the
hour *is* admissible. -/
theorem C8_counterexample :
    hourlyData wP none inpW = .ok [goodHP 0, goodHP 60] ∧
    (goodHP 60).is_good = true ∧
    (goodHP 60).precip_prob_ok = true ∧
    (goodHP 60).precip_prob = 0 := by
  refine ⟨?_, rfl, rfl, rfl⟩
  have h : hourlyData wP none inpW =
      .ok [evalHour inpW refW false noDict 0 (some 70) (some 69) (some 0) 0,
           evalHour inpW refW false noDict 60 (some 70) (some 69) (some 0) 0] := rfl
  rw [h, evalHour_goodW noDict 0 rfl, evalHour_goodW noDict 60 rfl]

/-- C8 amended: an hour whose position is beyond the end of a shorter
precipitation-probability array reads the default `0.0` (not absent), so its
probability check is `0 ≤ maxPrecipProbabilityPercent` — true for every
non-negative threshold — and the hour can still be admissible. -/
theorem C8_short_probability_defaults (inp : WeatherInputs) (ref : ℝ)
    (aq : Bool) (dict : ℤ → Option ℝ) (temps dews precs : List (Option ℝ))
    (pps : List ℝ) (i : ℕ) (t : ℤ) (hlen : pps.length ≤ i) :
    (∀ tf df pr, temps.get? i = some tf → dews.get? i = some df →
      precs.get? i = some pr →
      readHour inp ref aq dict temps dews precs pps i t =
        .ok (evalHour inp ref aq dict t tf df pr 0)) ∧
    (0 ≤ inp.max_precip_prob → ∀ tf df pr : ℝ,
      (evalHour inp ref aq dict t (some tf) (some df) (some pr) 0).precip_prob_ok
        = true) := by
  constructor
  · intro tf df pr htf hdf hpr
    unfold readHour
    rw [htf, hdf, hpr, List.get?_eq_none.mpr hlen]
    rfl
  · intro h0 tf df pr
    rw [evalHour_some]
    exact decide_eq_true (by exact_mod_cast h0)

/-- Witness for the amended C8 at position 1 of a length-1 probability array. -/
theorem C8_short_probability_witness :
    ([0] : List ℝ).length ≤ 1 ∧
    readHour inpW refW false noDict [some 70, some 70] [some 69, some 69]
      [some 0, some 0] [0] 1 60 =
      .ok (evalHour inpW refW false noDict 60 (some 70) (some 69) (some 0) 0) ∧
    (0:ℤ) ≤ inpW.max_precip_prob ∧
    (evalHour inpW refW false noDict 60 (some 70) (some 69) (some 0) 0).precip_prob_ok
      = true :=
  ⟨by simp,
   (C8_short_probability_defaults inpW refW false noDict [some 70, some 70]
     [some 69, some 69] [some 0, some 0] [0] 1 60 (by simp)).1
     (some 70) (some 69) (some 0) rfl rfl rfl,
   by norm_num [inpW],
   (C8_short_probability_defaults inpW refW false noDict [some 70, some 70]
     [some 69, some 69] [some 0, some 0] [0] 1 60 (by simp)).2
     (by norm_num [inpW]) 70 69 0⟩

theorem chain'_of_forall {α : Type} {r : α → α → Prop} {l : List α}
    (h : ∀ x ∈ l, ∀ y ∈ l, r x y) : List.Chain' r l := by
  induction l with
  | nil => exact List.chain'_nil
  | cons a l ih =>
    rw [List.chain'_cons']
    refine ⟨fun y hy => h a (by simp) y
      (List.mem_cons_of_mem a (List.mem_of_mem_head? hy)), ?_⟩
    exact ih (fun x hx y hy =>
      h x (List.mem_cons_of_mem a hx) y (List.mem_cons_of_mem a hy))

theorem sorted_cross {l₁ l₂ : List HourPoint} (h : SortedHours (l₁ ++ l₂)) :
    ∀ p ∈ l₁, ∀ q ∈ l₂, p.dt_local < q.dt_local :=
  (List.pairwise_append.mp h).2.2

theorem sorted_of_append_left {l₁ l₂ : List HourPoint}
    (h : SortedHours (l₁ ++ l₂)) : SortedHours l₁ :=
  (List.pairwise_append.mp h).1

theorem sorted_of_append_right {l₁ l₂ : List HourPoint}
    (h : SortedHours (l₁ ++ l₂)) : SortedHours l₂ :=
  (List.pairwise_append.mp h).2.1

theorem sorted_le_getLast {hs : List HourPoint} (h : SortedHours hs)
    {x : HourPoint} (hx : x ∈ hs.getLast?) :
    ∀ p ∈ hs, p.dt_local ≤ x.dt_local := by
  intro p hp
  obtain ⟨hne, hxl⟩ := List.mem_getLast?_eq_getLast hx
  have hsplit : hs.dropLast ++ [hs.getLast hne] = hs :=
    List.dropLast_append_getLast hne
  rw [← hsplit] at hp h
  rcases List.mem_append.mp hp with hmem | hmem
  · have := sorted_cross h p hmem (hs.getLast hne) (by simp)
    rw [hxl]
    exact le_of_lt this
  · simp at hmem
    rw [hmem, hxl]

theorem openRun_facts {pre : List HourPoint} {s : ℤ}
    (hsort : SortedHours pre) (hrun : OpenRun pre s) :
    (∀ p ∈ pre, s ≤ p.dt_local → p.is_good = true) ∧
    pre ≠ [] ∧ (∃ q ∈ pre, q.dt_local = s) ∧
    List.Chain' (fun x y => y.dt_local = s → x.is_good = false) pre := by
  obtain ⟨L₁, R, hL, hRne, hhead, hgood, hlast⟩ := hrun
  subst hL
  obtain ⟨rh, rtl, rfl⟩ := List.exists_cons_of_ne_nil hRne
  have hrh : rh.dt_local = s := hhead rh rfl
  have hL1lt : ∀ p ∈ L₁, p.dt_local < s := by
    intro p hp
    have h2 := sorted_cross hsort p hp rh (by simp)
    linarith [h2, hrh.ge, hrh.le]
  have hrtl : ∀ p ∈ rtl, s < p.dt_local := by
    intro p hp
    have hR := sorted_of_append_right hsort
    have h2 := (List.pairwise_cons.mp hR).1 p hp
    linarith [h2, hrh.ge, hrh.le]
  refine ⟨?_, by simp, ⟨rh, by simp, hrh⟩, ?_⟩
  · intro p hp hs
    rcases List.mem_append.mp hp with hm | hm
    · exact absurd hs (not_le.mpr (hL1lt p hm))
    · exact hgood p hm
  · rw [List.chain'_append]
    refine ⟨?_, ?_, ?_⟩
    · exact chain'_of_forall (fun x _ y hy hys =>
        absurd hys (by have h2 := hL1lt y hy; exact ne_of_lt h2))
    · rw [List.chain'_cons']
      refine ⟨fun y hy hys =>
        absurd hys (by have h2 := hrtl y (List.mem_of_mem_head? hy); exact ne_of_gt h2), ?_⟩
      exact chain'_of_forall (fun x _ y hy hys =>
        absurd hys (by have h2 := hrtl y hy; exact ne_of_gt h2))
    · intro x hx y hy hys
      exact hlast x hx

theorem openRun_close {pre : List HourPoint} {s : ℤ} {h : HourPoint}
    {rest : List HourPoint} (hsort : SortedHours (pre ++ h :: rest))
    (hrun : OpenRun pre s) (hbad : h.is_good = false) :
    IntervalOkOverall (pre ++ h :: rest) (s, h.dt_local) := by
  have hsortpre := sorted_of_append_left hsort
  have hcross := sorted_cross hsort
  obtain ⟨hgoods, hprene, hsmem, hchainb⟩ := openRun_facts hsortpre hrun
  have hslt : s < h.dt_local := by
    obtain ⟨q, hq, hqs⟩ := hsmem
    have := hcross q hq h (by simp)
    linarith [this, hqs.le, hqs.ge]
  have hpre_lt : ∀ p ∈ pre, p.dt_local < h.dt_local :=
    fun p hp => hcross p hp h (by simp)
  have hrestgt : ∀ p ∈ rest, h.dt_local < p.dt_local := by
    intro p hp
    have hr := sorted_of_append_right hsort
    exact (List.pairwise_cons.mp hr).1 p hp
  refine ⟨?_, ?_, ?_, ?_⟩
  · intro p hp hsp hpe
    rcases List.mem_append.mp hp with hm | hm
    · exact hgoods p hm hsp
    · rcases List.mem_cons.mp hm with hm2 | hm2
      · rw [hm2] at hpe
        exact absurd hpe (lt_irrefl _)
      · exact absurd hpe (not_lt.mpr (le_of_lt (hrestgt p hm2)))
  · rw [List.chain'_append]
    refine ⟨hchainb, ?_, ?_⟩
    · rw [List.chain'_cons']
      refine ⟨fun y hy hys => absurd hys (by
        have h2 := hrestgt y (List.mem_of_mem_head? hy)
        have h3 : s < y.dt_local := lt_trans hslt h2
        exact ne_of_gt h3), ?_⟩
      exact chain'_of_forall (fun x _ y hy hys => absurd hys (by
        have h2 := hrestgt y hy
        have h3 : s < y.dt_local := lt_trans hslt h2
        exact ne_of_gt h3))
    · intro x hx y hy hys
      simp only [List.head?_cons, Option.mem_def, Option.some.injEq] at hy
      rw [← hy] at hys
      exact absurd hys (ne_of_gt hslt)
  · intro h0 hh0 he
    match hpre : pre with
    | [] => exact absurd rfl hprene
    | p0 :: ptl =>
      have hh0' : h0 = p0 := by
        simp [List.head?_append, List.head?_cons] at hh0
        exact hh0.symm
      rw [hh0'] at he
      exact absurd he (not_le.mpr (hpre_lt p0 (by simp)))
  · rw [List.chain'_append]
    refine ⟨?_, ?_, ?_⟩
    · exact chain'_of_forall (fun x _ y hy h1 h2 =>
        absurd h2 (not_le.mpr (hpre_lt y hy)))
    · rw [List.chain'_cons']
      refine ⟨fun y hy h1 h2 => absurd h1 (lt_irrefl _), ?_⟩
      exact chain'_of_forall (fun x hx y _ h1 h2 =>
        absurd h1 (not_lt.mpr (le_of_lt (hrestgt x hx))))
    · intro x hx y hy
      simp only [List.head?_cons, Option.mem_def, Option.some.injEq] at hy
      rw [← hy]
      intro _ _
      exact hbad

theorem openRun_close_end {hs : List HourPoint} {s e : ℤ}
    (hsort : SortedHours hs) (hrun : OpenRun hs s)
    (he : ∀ p ∈ hs, p.dt_local < e) :
    IntervalOkOverall hs (s, e) := by
  obtain ⟨hgoods, hne, hsmem, hchainb⟩ := openRun_facts hsort hrun
  refine ⟨fun p hp hsp _ => hgoods p hp hsp, hchainb, ?_, ?_⟩
  · intro h0 hh0 he0
    exact absurd he0 (not_le.mpr (he h0 (List.mem_of_mem_head? hh0)))
  · exact chain'_of_forall (fun x _ y hy h1 h2 =>
      absurd h2 (not_le.mpr (he y hy)))

theorem overallScan_nil (st : Option ℤ) : overallScan st [] = ([], st) := by
  cases st with
  | none => rfl
  | some s => rfl

theorem overallScan_none_cons (h : HourPoint) (rest : List HourPoint) :
    overallScan none (h :: rest) =
      overallScan (if h.is_good then some h.dt_local else none) rest := rfl

theorem overallScan_some_good {h : HourPoint} (s : ℤ) (rest : List HourPoint)
    (hg : h.is_good = true) :
    overallScan (some s) (h :: rest) = overallScan (some s) rest := by
  have he : overallScan (some s) (h :: rest) =
      if h.is_good then overallScan (some s) rest
      else ((s, h.dt_local) :: (overallScan none rest).1,
        (overallScan none rest).2) := rfl
  rw [he, hg, if_pos rfl]

theorem overallScan_some_bad {h : HourPoint} (s : ℤ) (rest : List HourPoint)
    (hg : h.is_good = false) :
    overallScan (some s) (h :: rest) =
      ((s, h.dt_local) :: (overallScan none rest).1,
        (overallScan none rest).2) := by
  have he : overallScan (some s) (h :: rest) =
      if h.is_good then overallScan (some s) rest
      else ((s, h.dt_local) :: (overallScan none rest).1,
        (overallScan none rest).2) := rfl
  rw [he, hg, if_neg Bool.false_ne_true]

theorem overallScan_sound :
    ∀ (hs pre : List HourPoint) (st : Option ℤ),
      SortedHours (pre ++ hs) →
      (match st with
       | none => ∀ x ∈ pre.getLast?, x.is_good = false
       | some s => OpenRun pre s) →
      (∀ se ∈ (overallScan st hs).1, IntervalOkOverall (pre ++ hs) se) ∧
      (∀ s, (overallScan st hs).2 = some s → OpenRun (pre ++ hs) s) := by
  intro hs
  induction hs with
  | nil =>
    intro pre st hsort hinv
    rw [overallScan_nil]
    refine ⟨fun se hse => absurd hse (List.not_mem_nil se), ?_⟩
    intro s hst
    cases st with
    | none => exact absurd hst (by simp)
    | some s' =>
      simp only [Option.some.injEq] at hst
      rw [← hst]
      simpa using hinv
  | cons h rest ih =>
    intro pre st hsort hinv
    have hsort' : SortedHours ((pre ++ [h]) ++ rest) := by
      rwa [List.append_assoc, List.singleton_append]
    have hassoc : (pre ++ [h]) ++ rest = pre ++ h :: rest := by
      rw [List.append_assoc, List.singleton_append]
    cases st with
    | none =>
      rw [overallScan_none_cons]
      cases hg : h.is_good with
      | true =>
        rw [if_pos rfl]
        have hres := ih (pre ++ [h]) (some h.dt_local) hsort'
          ⟨pre, [h], rfl, by simp, by simp, by simp [hg], hinv⟩
        rw [hassoc] at hres
        exact hres
      | false =>
        rw [if_neg Bool.false_ne_true]
        have hres := ih (pre ++ [h]) none hsort' (by
          intro x hx
          rw [List.getLast?_concat] at hx
          simp only [Option.mem_def, Option.some.injEq] at hx
          rw [← hx]
          exact hg)
        rw [hassoc] at hres
        exact hres
    | some s =>
      cases hg : h.is_good with
      | true =>
        rw [overallScan_some_good s rest hg]
        obtain ⟨L₁, R, hL, hRne, hhead, hgood, hlast⟩ := hinv
        have hrun' : OpenRun (pre ++ [h]) s := by
          refine ⟨L₁, R ++ [h], by rw [hL, List.append_assoc], by simp, ?_, ?_, hlast⟩
          · intro h0 hh0
            obtain ⟨rh, rtl, rfl⟩ := List.exists_cons_of_ne_nil hRne
            simp only [List.cons_append, List.head?_cons, Option.mem_def,
              Option.some.injEq] at hh0
            rw [← hh0]
            exact hhead rh rfl
          · intro p hp
            rcases List.mem_append.mp hp with hm | hm
            · exact hgood p hm
            · simp at hm
              rw [hm]
              exact hg
        have hres := ih (pre ++ [h]) (some s) hsort' hrun'
        rw [hassoc] at hres
        exact hres
      | false =>
        rw [overallScan_some_bad s rest hg]
        have hres := ih (pre ++ [h]) none hsort' (by
          intro x hx
          rw [List.getLast?_concat] at hx
          simp only [Option.mem_def, Option.some.injEq] at hx
          rw [← hx]
          exact hg)
        rw [hassoc] at hres
        constructor
        · intro se hse
          rcases List.mem_cons.mp hse with hm | hm
          · rw [hm]
            exact openRun_close hsort hinv hg
          · exact hres.1 se hm
        · exact hres.2

theorem evalHour_dt (inp : WeatherInputs) (ref : ℝ) (aq : Bool)
    (dict : ℤ → Option ℝ) (t : ℤ) (tfo dfo pro : Option ℝ) (pp : ℝ) :
    (evalHour inp ref aq dict t tfo dfo pro pp).dt_local = t := by
  match tfo, dfo, pro with
  | none, _, _ => rfl
  | some _, none, _ => rfl
  | some _, some _, none => rfl
  | some _, some _, some _ => rfl

theorem buildHourly_map_dt (inp : WeatherInputs) (ref : ℝ) (aq : Bool)
    (dict : ℤ → Option ℝ) (temps dews precs : List (Option ℝ)) (pps : List ℝ) :
    ∀ (times : List ℤ) (i : ℕ) (hs : List HourPoint),
      buildHourly inp ref aq dict temps dews precs pps times i = .ok hs →
      hs.map HourPoint.dt_local = times := by
  intro times
  induction times with
  | nil =>
    intro i hs hok
    have : Except.ok ([] : List HourPoint) =
        (Except.ok hs : Except DataError (List HourPoint)) := hok ▸ rfl
    simp only [Except.ok.injEq] at this
    rw [← this]
    rfl
  | cons t rest ih =>
    intro i hs hok
    unfold buildHourly readHour at hok
    cases htf : temps.get? i with
    | none => rw [htf] at hok; cases hdf : dews.get? i <;> simp_all
    | some tf =>
      rw [htf] at hok
      cases hdf : dews.get? i with
      | none => rw [hdf] at hok; simp_all
      | some df =>
        rw [hdf] at hok
        cases hpr : precs.get? i with
        | none => rw [hpr] at hok; simp_all
        | some pr =>
          rw [hpr] at hok
          cases hrec : buildHourly inp ref aq dict temps dews precs pps rest
              (i + 1) with
          | error e => rw [hrec] at hok; simp_all
          | ok hps =>
            rw [hrec] at hok
            simp only [Except.ok.injEq] at hok
            rw [← hok]
            simp only [List.map_cons, evalHour_dt, List.cons.injEq, true_and]
            exact ih (i + 1) hps hrec

theorem overallPeriods_sound (times : List ℤ) (hs : List HourPoint)
    (hmap : hs.map HourPoint.dt_local = times) (hsort : SortedHours hs) :
    ∀ se ∈ overallPeriods times 0 hs, IntervalOkOverall hs se := by
  intro se hse
  unfold overallPeriods at hse
  dsimp only at hse
  have hmain := overallScan_sound hs [] none (by simpa using hsort) (by simp)
  simp only [List.nil_append] at hmain
  cases h2 : (overallScan none hs).2 with
  | none =>
    rw [h2] at hse
    exact hmain.1 se hse
  | some s =>
    rw [h2] at hse
    cases htl : times.getLast? with
    | none => rw [htl] at hse; exact hmain.1 se hse
    | some tl =>
      rw [htl] at hse
      rcases List.mem_append.mp hse with hm | hm
      · exact hmain.1 se hm
      · simp only [List.mem_singleton] at hm
        rw [hm]
        have hrun := hmain.2 s h2
        refine openRun_close_end hsort hrun ?_
        intro p hp
        have hlast : ∃ x ∈ hs.getLast?, x.dt_local = tl := by
          rw [← hmap] at htl
          rw [List.getLast?_map] at htl
          cases hx : hs.getLast? with
          | none => rw [hx] at htl; simp at htl
          | some x =>
            rw [hx] at htl
            simp only [Option.map_some', Option.some.injEq] at htl
            exact ⟨x, by simp, htl⟩
        obtain ⟨x, hx, hxtl⟩ := hlast
        have h3 := sorted_le_getLast hsort hx p hp
        linarith [h3, hxtl.le, hxtl.ge]

theorem overallScan_append (l₁ l₂ : List HourPoint) :
    ∀ st, overallScan st (l₁ ++ l₂) =
      ((overallScan st l₁).1 ++ (overallScan (overallScan st l₁).2 l₂).1,
        (overallScan (overallScan st l₁).2 l₂).2) := by
  induction l₁ with
  | nil =>
    intro st
    rw [List.nil_append, overallScan_nil]
    simp
  | cons h rest ih =>
    intro st
    rw [List.cons_append]
    cases st with
    | none =>
      rw [overallScan_none_cons, overallScan_none_cons, ih]
    | some s =>
      cases hg : h.is_good with
      | true =>
        rw [overallScan_some_good s _ hg, overallScan_some_good s rest hg, ih]
      | false =>
        rw [overallScan_some_bad s _ hg, overallScan_some_bad s rest hg, ih none]
        simp

theorem overallScan_absorb (R : List HourPoint) (s : ℤ)
    (hR : ∀ p ∈ R, p.is_good = true) :
    ∀ B, overallScan (some s) (R ++ B) = overallScan (some s) B := by
  induction R with
  | nil => intro B; rfl
  | cons h rest ih =>
    intro B
    rw [List.cons_append, overallScan_some_good s _ (hR h (by simp))]
    exact ih (fun p hp => hR p (List.mem_cons_of_mem h hp)) B

theorem overallScan_state_none :
    ∀ (A : List HourPoint) (st : Option ℤ) (x : HourPoint),
      A.getLast? = some x → x.is_good = false → (overallScan st A).2 = none := by
  intro A
  induction A with
  | nil => intro st x hx; simp at hx
  | cons a rest ih =>
    intro st x hx hbad
    cases hr : rest with
    | nil =>
      rw [hr] at hx
      simp only [List.getLast?_singleton, Option.some.injEq] at hx
      rw [← hx] at hbad
      cases st with
      | none =>
        rw [overallScan_none_cons, hbad]
        rw [if_neg Bool.false_ne_true, overallScan_nil]
      | some s =>
        rw [overallScan_some_bad s [] hbad, overallScan_nil]
    | cons b tl =>
      have hx' : rest.getLast? = some x := by
        rw [hr] at hx ⊢
        rw [List.getLast?_cons_cons] at hx
        exact hx
      rw [← hr]
      cases st with
      | none => rw [overallScan_none_cons]; exact ih _ x hx' hbad
      | some s =>
        cases hg : a.is_good with
        | true => rw [overallScan_some_good s rest hg]; exact ih _ x hx' hbad
        | false => rw [overallScan_some_bad s rest hg]; exact ih none x hx' hbad

theorem overallScan_first (s : ℤ) :
    ∀ (B : List HourPoint),
      (∃ e, (s, e) ∈ (overallScan (some s) B).1 ∧ ∃ b ∈ B, b.dt_local = e) ∨
      ((overallScan (some s) B).2 = some s ∧ (overallScan (some s) B).1 = []) := by
  intro B
  induction B with
  | nil => right; rw [overallScan_nil]; exact ⟨rfl, rfl⟩
  | cons b rest ih =>
    cases hg : b.is_good with
    | true =>
      rw [overallScan_some_good s rest hg]
      rcases ih with ⟨e, hmem, b', hb', hbe⟩ | hok
      · exact Or.inl ⟨e, hmem, b', List.mem_cons_of_mem b hb', hbe⟩
      · exact Or.inr hok
    | false =>
      rw [overallScan_some_bad s rest hg]
      exact Or.inl ⟨b.dt_local, by simp, b, by simp, rfl⟩

theorem hasKey_iff {α : Type} (m : List (ℤ × List α)) (k : ℤ) :
    hasKey m k = true ↔ ∃ l, (k, l) ∈ m := by
  unfold hasKey
  rw [List.any_eq_true]
  constructor
  · rintro ⟨p, hp, hpk⟩
    simp only [decide_eq_true_eq] at hpk
    exact ⟨p.2, by rw [← hpk]; exact hp⟩
  · rintro ⟨l, hl⟩
    exact ⟨(k, l), hl, by simp⟩

theorem hasKey_appendAt {α : Type} (m : List (ℤ × List α)) (k k' : ℤ) (v : α) :
    hasKey (appendAt m k v) k' = hasKey m k' := by
  unfold hasKey appendAt
  rw [List.any_map]
  congr 1
  funext p
  by_cases hp : p.1 = k
  · simp [hp, Function.comp]
  · simp [hp, Function.comp]

theorem hasKey_addKey {α : Type} (m : List (ℤ × List α)) (k k' : ℤ) :
    hasKey (addKey m k) k' = (hasKey m k' || decide (k = k')) := by
  unfold hasKey addKey
  rw [List.any_append]
  simp

theorem mem_appendAt {α : Type} {m : List (ℤ × List α)} {k : ℤ} {v : α}
    {dl : ℤ × List α} (h : dl ∈ appendAt m k v) :
    ∃ dl₀ ∈ m, dl = if dl₀.1 = k then (dl₀.1, dl₀.2 ++ [v]) else dl₀ := by
  unfold appendAt at h
  obtain ⟨dl₀, hdl₀, heq⟩ := List.mem_map.mp h
  exact ⟨dl₀, hdl₀, heq.symm⟩

theorem mem_addKey {α : Type} {m : List (ℤ × List α)} {k : ℤ}
    {dl : ℤ × List α} (h : dl ∈ addKey m k) :
    dl ∈ m ∨ dl = (k, []) := by
  unfold addKey at h
  rcases List.mem_append.mp h with hm | hm
  · exact Or.inl hm
  · simp at hm
    exact Or.inr hm

theorem InBucket_appendAt {m : List (ℤ × List (ℤ × ℤ))} {d : ℤ} {v : ℤ × ℤ}
    (k : ℤ) (v' : ℤ × ℤ) (h : InBucket m d v) :
    InBucket (appendAt m k v') d v := by
  obtain ⟨l, hl, hv⟩ := h
  unfold InBucket appendAt
  have himg := List.mem_map_of_mem
    (fun p : ℤ × List (ℤ × ℤ) => if p.1 = k then (p.1, p.2 ++ [v']) else p) hl
  dsimp only at himg
  by_cases hdk : d = k
  · refine ⟨l ++ [v'], ?_, by simp [hv]⟩
    have heq : (if (d, l).1 = k then ((d, l).1, (d, l).2 ++ [v']) else (d, l))
        = (d, l ++ [v']) := by simp [hdk]
    rw [heq] at himg
    exact himg
  · refine ⟨l, ?_, hv⟩
    have heq : (if (d, l).1 = k then ((d, l).1, (d, l).2 ++ [v']) else (d, l))
        = (d, l) := by simp [hdk]
    rw [heq] at himg
    exact himg

theorem InBucket_addKey {m : List (ℤ × List (ℤ × ℤ))} {d : ℤ} {v : ℤ × ℤ}
    (k : ℤ) (h : InBucket m d v) : InBucket (addKey m k) d v := by
  obtain ⟨l, hl, hv⟩ := h
  exact ⟨l, List.mem_append_left _ hl, hv⟩

theorem InBucket_appendAt_self {m : List (ℤ × List (ℤ × ℤ))} {d : ℤ}
    (v : ℤ × ℤ) (h : hasKey m d = true) : InBucket (appendAt m d v) d v := by
  obtain ⟨l, hl⟩ := (hasKey_iff m d).mp h
  refine ⟨l ++ [v], ?_, by simp⟩
  have himg := List.mem_map_of_mem
    (fun p : ℤ × List (ℤ × ℤ) => if p.1 = d then (p.1, p.2 ++ [v]) else p) hl
  dsimp only at himg
  have heq : (if (d, l).1 = d then ((d, l).1, (d, l).2 ++ [v]) else (d, l))
      = (d, l ++ [v]) := by simp
  rw [heq] at himg
  exact himg

theorem dayStep_k_good_none (s : DayState) (h : HourPoint)
    (hk : hasKey s.chart (dayOf h.dt_local) = true)
    (hst : s.start = none) (hg : h.is_good = true) :
    dayStep s h = ⟨appendAt s.chart s.cur h, s.ints, s.cur,
      some h.dt_local, some h.dt_local⟩ := by
  unfold dayStep
  dsimp only
  rw [hk, hst, hg]
  rfl

theorem dayStep_k_good_some (s : DayState) (h : HourPoint) (st : ℤ)
    (hk : hasKey s.chart (dayOf h.dt_local) = true)
    (hst : s.start = some st) (hg : h.is_good = true) :
    dayStep s h = ⟨appendAt s.chart s.cur h, s.ints, s.cur,
      some st, some h.dt_local⟩ := by
  unfold dayStep
  dsimp only
  rw [hk, hst, hg]
  rfl

theorem dayStep_k_bad_none (s : DayState) (h : HourPoint)
    (hk : hasKey s.chart (dayOf h.dt_local) = true)
    (hst : s.start = none) (hg : h.is_good = false) :
    dayStep s h = ⟨appendAt s.chart s.cur h, s.ints, s.cur,
      none, some h.dt_local⟩ := by
  unfold dayStep
  dsimp only
  rw [hk, hst, hg]
  rfl

theorem dayStep_k_bad_some (s : DayState) (h : HourPoint) (st : ℤ)
    (hk : hasKey s.chart (dayOf h.dt_local) = true)
    (hst : s.start = some st) (hg : h.is_good = false) :
    dayStep s h = ⟨appendAt s.chart s.cur h,
      appendAt s.ints s.cur (st, h.dt_local), s.cur, none, some h.dt_local⟩ := by
  unfold dayStep
  dsimp only
  rw [hk, hst, hg]
  rfl

theorem dayStep_b_good_none (s : DayState) (h : HourPoint)
    (hk : hasKey s.chart (dayOf h.dt_local) = false)
    (hst : s.start = none) (hg : h.is_good = true) :
    dayStep s h = ⟨appendAt (addKey s.chart (dayOf h.dt_local))
        (dayOf h.dt_local) h,
      addKey s.ints (dayOf h.dt_local), dayOf h.dt_local,
      some h.dt_local, some h.dt_local⟩ := by
  unfold dayStep
  dsimp only
  rw [hk, hst, hg]
  rfl

theorem dayStep_b_good_some (s : DayState) (h : HourPoint) (st : ℤ)
    (hk : hasKey s.chart (dayOf h.dt_local) = false)
    (hst : s.start = some st) (hg : h.is_good = true) :
    dayStep s h = ⟨appendAt (addKey s.chart (dayOf h.dt_local))
        (dayOf h.dt_local) h,
      addKey (appendAt s.ints s.cur (st, h.dt_local)) (dayOf h.dt_local),
      dayOf h.dt_local, some h.dt_local, some h.dt_local⟩ := by
  unfold dayStep
  dsimp only
  rw [hk, hst, hg]
  rfl

theorem dayStep_b_bad_none (s : DayState) (h : HourPoint)
    (hk : hasKey s.chart (dayOf h.dt_local) = false)
    (hst : s.start = none) (hg : h.is_good = false) :
    dayStep s h = ⟨appendAt (addKey s.chart (dayOf h.dt_local))
        (dayOf h.dt_local) h,
      addKey s.ints (dayOf h.dt_local), dayOf h.dt_local,
      none, some h.dt_local⟩ := by
  unfold dayStep
  dsimp only
  rw [hk, hst, hg]
  rfl

theorem dayStep_b_bad_some (s : DayState) (h : HourPoint) (st : ℤ)
    (hk : hasKey s.chart (dayOf h.dt_local) = false)
    (hst : s.start = some st) (hg : h.is_good = false) :
    dayStep s h = ⟨appendAt (addKey s.chart (dayOf h.dt_local))
        (dayOf h.dt_local) h,
      addKey (appendAt s.ints s.cur (st, h.dt_local)) (dayOf h.dt_local),
      dayOf h.dt_local, none, some h.dt_local⟩ := by
  unfold dayStep
  dsimp only
  rw [hk, hst, hg]
  rfl

theorem dayOf_mono {a b : ℤ} (h : a ≤ b) : dayOf a ≤ dayOf b := by
  unfold dayOf
  omega

theorem InBucket_dayStep {s : DayState} {d : ℤ} {v : ℤ × ℤ} (h : HourPoint)
    (hib : InBucket s.ints d v) : InBucket (dayStep s h).ints d v := by
  cases hg : h.is_good with
  | true =>
    cases hst : s.start with
    | none =>
      cases hk : hasKey s.chart (dayOf h.dt_local) with
      | true => rw [dayStep_k_good_none s h hk hst hg]; exact hib
      | false =>
        rw [dayStep_b_good_none s h hk hst hg]
        exact InBucket_addKey _ hib
    | some st =>
      cases hk : hasKey s.chart (dayOf h.dt_local) with
      | true => rw [dayStep_k_good_some s h st hk hst hg]; exact hib
      | false =>
        rw [dayStep_b_good_some s h st hk hst hg]
        exact InBucket_addKey _ (InBucket_appendAt _ _ hib)
  | false =>
    cases hst : s.start with
    | none =>
      cases hk : hasKey s.chart (dayOf h.dt_local) with
      | true => rw [dayStep_k_bad_none s h hk hst hg]; exact hib
      | false =>
        rw [dayStep_b_bad_none s h hk hst hg]
        exact InBucket_addKey _ hib
    | some st =>
      cases hk : hasKey s.chart (dayOf h.dt_local) with
      | true =>
        rw [dayStep_k_bad_some s h st hk hst hg]
        exact InBucket_appendAt _ _ hib
      | false =>
        rw [dayStep_b_bad_some s h st hk hst hg]
        exact InBucket_addKey _ (InBucket_appendAt _ _ hib)

theorem InBucket_foldl {d : ℤ} {v : ℤ × ℤ} :
    ∀ (l : List HourPoint) (s : DayState), InBucket s.ints d v →
      InBucket (l.foldl dayStep s).ints d v := by
  intro l
  induction l with
  | nil => intro s hib; exact hib
  | cons h rest ih =>
    intro s hib
    rw [List.foldl_cons]
    exact ih (dayStep s h) (InBucket_dayStep h hib)

theorem InBucket_finish {s : DayState} {d : ℤ} {v : ℤ × ℤ}
    (hib : InBucket s.ints d v) : InBucket (dailyFinish s).2 d v := by
  unfold dailyFinish
  cases hst : s.start with
  | none => exact hib
  | some st =>
    cases hl : s.last with
    | none => exact hib
    | some l => exact InBucket_appendAt _ _ hib

theorem dayStep_facts (s : DayState) (h : HourPoint)
    (hkc : ∀ k, hasKey s.chart k = hasKey s.ints k)
    (hcur : hasKey s.ints s.cur = true) :
    (dayStep s h).last = some h.dt_local ∧
    hasKey (dayStep s h).ints (dayStep s h).cur = true ∧
    (∀ k, hasKey (dayStep s h).chart k = hasKey (dayStep s h).ints k) := by
  cases hg : h.is_good with
  | true =>
    cases hst : s.start with
    | none =>
      cases hk : hasKey s.chart (dayOf h.dt_local) with
      | true =>
        rw [dayStep_k_good_none s h hk hst hg]
        exact ⟨rfl, hcur, fun k => by rw [hasKey_appendAt]; exact hkc k⟩
      | false =>
        rw [dayStep_b_good_none s h hk hst hg]
        refine ⟨rfl, ?_, ?_⟩
        · simp [hasKey_addKey]
        · intro k
          rw [hasKey_appendAt, hasKey_addKey, hasKey_addKey, hkc k]
    | some st =>
      cases hk : hasKey s.chart (dayOf h.dt_local) with
      | true =>
        rw [dayStep_k_good_some s h st hk hst hg]
        exact ⟨rfl, hcur, fun k => by rw [hasKey_appendAt]; exact hkc k⟩
      | false =>
        rw [dayStep_b_good_some s h st hk hst hg]
        refine ⟨rfl, ?_, ?_⟩
        · simp [hasKey_addKey]
        · intro k
          rw [hasKey_appendAt, hasKey_addKey, hasKey_addKey, hasKey_appendAt,
            hkc k]
  | false =>
    cases hst : s.start with
    | none =>
      cases hk : hasKey s.chart (dayOf h.dt_local) with
      | true =>
        rw [dayStep_k_bad_none s h hk hst hg]
        exact ⟨rfl, hcur, fun k => by rw [hasKey_appendAt]; exact hkc k⟩
      | false =>
        rw [dayStep_b_bad_none s h hk hst hg]
        refine ⟨rfl, ?_, ?_⟩
        · simp [hasKey_addKey]
        · intro k
          rw [hasKey_appendAt, hasKey_addKey, hasKey_addKey, hkc k]
    | some st =>
      cases hk : hasKey s.chart (dayOf h.dt_local) with
      | true =>
        rw [dayStep_k_bad_some s h st hk hst hg]
        refine ⟨rfl, ?_, ?_⟩
        · rw [hasKey_appendAt]; exact hcur
        · intro k
          rw [hasKey_appendAt, hasKey_appendAt, hkc k]
      | false =>
        rw [dayStep_b_bad_some s h st hk hst hg]
        refine ⟨rfl, ?_, ?_⟩
        · simp [hasKey_addKey]
        · intro k
          rw [hasKey_appendAt, hasKey_addKey, hasKey_addKey, hasKey_appendAt,
            hkc k]

theorem daily_open_closes :
    ∀ (suf : List HourPoint) (s : DayState) (st l₀ : ℤ),
      s.start = some st → s.last = some l₀ →
      hasKey s.ints s.cur = true →
      (∀ k, hasKey s.chart k = hasKey s.ints k) →
      ∃ e, InBucket (dailyFinish (suf.foldl dayStep s)).2 s.cur (st, e) := by
  intro suf
  induction suf with
  | nil =>
    intro s st l₀ hst hl hcur hkc
    refine ⟨l₀ + 60, ?_⟩
    rw [List.foldl_nil]
    unfold dailyFinish
    rw [hst, hl]
    exact InBucket_appendAt_self _ hcur
  | cons h rest ih =>
    intro s st l₀ hst hl hcur hkc
    rw [List.foldl_cons]
    cases hg : h.is_good with
    | true =>
      cases hk : hasKey s.chart (dayOf h.dt_local) with
      | true =>
        have hstep := dayStep_k_good_some s h st hk hst hg
        have hres := ih (dayStep s h) st h.dt_local (by rw [hstep])
          (by rw [hstep]) (by rw [hstep]; exact hcur)
          (by rw [hstep]; intro k; rw [hasKey_appendAt]; exact hkc k)
        rw [hstep] at hres
        rw [hstep]
        exact hres
      | false =>
        have hstep := dayStep_b_good_some s h st hk hst hg
        refine ⟨h.dt_local, ?_⟩
        have hb : InBucket (dayStep s h).ints s.cur (st, h.dt_local) := by
          rw [hstep]
          exact InBucket_addKey _ (InBucket_appendAt_self _ hcur)
        exact InBucket_finish (InBucket_foldl rest _ hb)
    | false =>
      cases hk : hasKey s.chart (dayOf h.dt_local) with
      | true =>
        have hstep := dayStep_k_bad_some s h st hk hst hg
        refine ⟨h.dt_local, ?_⟩
        have hb : InBucket (dayStep s h).ints s.cur (st, h.dt_local) := by
          rw [hstep]
          exact InBucket_appendAt_self _ hcur
        exact InBucket_finish (InBucket_foldl rest _ hb)
      | false =>
        have hstep := dayStep_b_bad_some s h st hk hst hg
        refine ⟨h.dt_local, ?_⟩
        have hb : InBucket (dayStep s h).ints s.cur (st, h.dt_local) := by
          rw [hstep]
          exact InBucket_addKey _ (InBucket_appendAt_self _ hcur)
        exact InBucket_finish (InBucket_foldl rest _ hb)

theorem openDayRun_facts {pre : List HourPoint} {st : ℤ} {d : ℤ}
    (hsort : SortedHours pre) (hrun : OpenDayRun pre st d) :
    (∀ p ∈ pre, st ≤ p.dt_local → p.is_good = true ∧ dayOf p.dt_local = d) ∧
    pre ≠ [] ∧ (∃ q ∈ pre, q.dt_local = st) ∧
    List.Chain' (fun x y => y.dt_local = st →
      x.is_good = false ∨ dayOf x.dt_local ≠ d) pre := by
  obtain ⟨L₁, R, hL, hRne, hhead, hgood, hlast⟩ := hrun
  subst hL
  obtain ⟨rh, rtl, rfl⟩ := List.exists_cons_of_ne_nil hRne
  have hrh : rh.dt_local = st := hhead rh rfl
  have hL1lt : ∀ p ∈ L₁, p.dt_local < st := by
    intro p hp
    have h2 := sorted_cross hsort p hp rh (by simp)
    linarith [h2, hrh.le, hrh.ge]
  have hrtl : ∀ p ∈ rtl, st < p.dt_local := by
    intro p hp
    have hR := sorted_of_append_right hsort
    have h2 := (List.pairwise_cons.mp hR).1 p hp
    linarith [h2, hrh.le, hrh.ge]
  refine ⟨?_, by simp, ⟨rh, by simp, hrh⟩, ?_⟩
  · intro p hp hs
    rcases List.mem_append.mp hp with hm | hm
    · exact absurd hs (not_le.mpr (hL1lt p hm))
    · exact hgood p hm
  · rw [List.chain'_append]
    refine ⟨?_, ?_, ?_⟩
    · exact chain'_of_forall (fun x _ y hy hys =>
        absurd hys (by have h2 := hL1lt y hy; exact ne_of_lt h2))
    · rw [List.chain'_cons']
      refine ⟨fun y hy hys =>
        absurd hys (by
          have h2 := hrtl y (List.mem_of_mem_head? hy)
          exact ne_of_gt h2), ?_⟩
      exact chain'_of_forall (fun x _ y hy hys =>
        absurd hys (by have h2 := hrtl y hy; exact ne_of_gt h2))
    · intro x hx y hy hys
      exact hlast x hx

theorem openDayRun_close {pre : List HourPoint} {st d : ℤ} {h : HourPoint}
    (hsort : SortedHours (pre ++ [h]))
    (hrun : OpenDayRun pre st d)
    (hclose : h.is_good = false ∨ dayOf h.dt_local ≠ d) :
    IntervalOkDaily (pre ++ [h]) d (st, h.dt_local) := by
  have hsortpre := sorted_of_append_left hsort
  have hcross := sorted_cross hsort
  obtain ⟨hgoods, hprene, hsmem, hchainb⟩ := openDayRun_facts hsortpre hrun
  have hslt : st < h.dt_local := by
    obtain ⟨q, hq, hqs⟩ := hsmem
    have h2 := hcross q hq h (by simp)
    linarith [h2, hqs.le, hqs.ge]
  have hpre_lt : ∀ p ∈ pre, p.dt_local < h.dt_local :=
    fun p hp => hcross p hp h (by simp)
  refine ⟨?_, ?_, ?_, ?_⟩
  · intro p hp hsp hpe
    rcases List.mem_append.mp hp with hm | hm
    · exact (hgoods p hm hsp).1
    · simp only [List.mem_singleton] at hm
      rw [hm] at hpe
      exact absurd hpe (lt_irrefl _)
  · rw [List.chain'_append]
    refine ⟨hchainb, List.chain'_singleton h, ?_⟩
    · intro x hx y hy hys
      simp only [List.head?_cons, Option.mem_def, Option.some.injEq] at hy
      rw [← hy] at hys
      exact absurd hys (ne_of_gt hslt)
  · intro h0 hh0 he
    match hpre : pre with
    | [] => exact absurd rfl hprene
    | p0 :: ptl =>
      have hh0' : h0 = p0 := by
        simp [List.head?_append, List.head?_cons] at hh0
        exact hh0.symm
      rw [hh0'] at he
      exact absurd he (not_le.mpr (hpre_lt p0 (by simp)))
  · rw [List.chain'_append]
    refine ⟨?_, List.chain'_singleton h, ?_⟩
    · exact chain'_of_forall (fun x _ y hy h1 h2 =>
        absurd h2 (not_le.mpr (hpre_lt y hy)))
    · intro x hx y hy
      simp only [List.head?_cons, Option.mem_def, Option.some.injEq] at hy
      rw [← hy]
      intro _ _
      exact hclose

theorem openDayRun_close_end {hs : List HourPoint} {st d e : ℤ}
    (hsort : SortedHours hs) (hrun : OpenDayRun hs st d)
    (he : ∀ p ∈ hs, p.dt_local < e) :
    IntervalOkDaily hs d (st, e) := by
  obtain ⟨hgoods, hne, hsmem, hchainb⟩ := openDayRun_facts hsort hrun
  refine ⟨fun p hp hsp _ => (hgoods p hp hsp).1, hchainb, ?_, ?_⟩
  · intro h0 hh0 he0
    exact absurd he0 (not_le.mpr (he h0 (List.mem_of_mem_head? hh0)))
  · exact chain'_of_forall (fun x _ y hy h1 h2 =>
      absurd h2 (not_le.mpr (he y hy)))

theorem IntervalOkDaily_extend {pre : List HourPoint} {d : ℤ} {se : ℤ × ℤ}
    (h : HourPoint) (hsort : SortedHours (pre ++ [h]))
    (hok : IntervalOkDaily pre d se) (hlt : se.1 < se.2)
    (hend : ∃ x ∈ pre.getLast?, se.2 ≤ x.dt_local) :
    IntervalOkDaily (pre ++ [h]) d se := by
  obtain ⟨x, hx, hxe⟩ := hend
  have hxmem : x ∈ pre := List.mem_of_mem_getLast? hx
  have hxh : x.dt_local < h.dt_local := sorted_cross hsort x hxmem h (by simp)
  obtain ⟨ha, hb, hh, hc⟩ := hok
  have hse2h : se.2 < h.dt_local := by linarith
  refine ⟨?_, ?_, ?_, ?_⟩
  · intro p hp h1 h2
    rcases List.mem_append.mp hp with hm | hm
    · exact ha p hm h1 h2
    · simp only [List.mem_singleton] at hm
      rw [hm] at h2
      exact absurd h2 (not_lt.mpr (le_of_lt hse2h))
  · rw [List.chain'_append]
    refine ⟨hb, List.chain'_singleton h, ?_⟩
    intro x' hx' y hy hys
    simp only [List.head?_cons, Option.mem_def, Option.some.injEq] at hy
    rw [← hy] at hys
    have hlt2 : se.1 < h.dt_local := by linarith
    exact absurd hys (ne_of_gt hlt2)
  · intro h0 hh0 he0
    cases hpre : pre with
    | nil =>
      rw [hpre] at hx
      simp at hx
    | cons p0 ptl =>
      rw [hpre] at hh0
      have hh0' : h0 = p0 := by
        simp [List.head?_append, List.head?_cons] at hh0
        exact hh0.symm
      rw [hh0'] at he0 ⊢
      exact hh p0 (by rw [hpre]; simp) he0
  · rw [List.chain'_append]
    refine ⟨hc, List.chain'_singleton h, ?_⟩
    intro x' hx' y hy h1 h2
    have hxx : x' = x := by
      rw [Option.mem_def] at hx hx'
      rw [hx] at hx'
      exact (Option.some.inj hx').symm
    rw [hxx] at h1
    exact absurd h1 (not_lt.mpr hxe)

theorem IntsSound_extend {pre : List HourPoint}
    {ints : List (ℤ × List (ℤ × ℤ))} (h : HourPoint)
    (hsort : SortedHours (pre ++ [h])) (hsound : IntsSound pre ints) :
    IntsSound (pre ++ [h]) ints := by
  intro dl hdl se hse
  obtain ⟨hok, hlt, hend⟩ := hsound dl hdl se hse
  obtain ⟨x, hx, hxe⟩ := hend
  have hxmem : x ∈ pre := List.mem_of_mem_getLast? hx
  have hxh : x.dt_local < h.dt_local := sorted_cross hsort x hxmem h (by simp)
  refine ⟨IntervalOkDaily_extend h hsort hok hlt ⟨x, hx, hxe⟩, hlt,
    ⟨h, by rw [List.getLast?_concat]; rfl, by linarith⟩⟩

theorem openDayRun_extend {pre : List HourPoint} {st d : ℤ} {h : HourPoint}
    (hrun : OpenDayRun pre st d) (hg : h.is_good = true)
    (hd : dayOf h.dt_local = d) : OpenDayRun (pre ++ [h]) st d := by
  obtain ⟨L₁, R, hL, hRne, hhead, hgood, hlast⟩ := hrun
  refine ⟨L₁, R ++ [h], by rw [hL, List.append_assoc], by simp, ?_, ?_, hlast⟩
  · intro h0 hh0
    obtain ⟨rh, rtl, rfl⟩ := List.exists_cons_of_ne_nil hRne
    simp only [List.cons_append, List.head?_cons, Option.mem_def,
      Option.some.injEq] at hh0
    rw [← hh0]
    exact hhead rh rfl
  · intro p hp
    rcases List.mem_append.mp hp with hm | hm
    · exact hgood p hm
    · simp only [List.mem_singleton] at hm
      rw [hm]
      exact ⟨hg, hd⟩

theorem openDayRun_single {pre : List HourPoint} {h : HourPoint}
    (hg : h.is_good = true)
    (hprev : ∀ x ∈ pre.getLast?, x.is_good = false ∨
      dayOf x.dt_local ≠ dayOf h.dt_local) :
    OpenDayRun (pre ++ [h]) h.dt_local (dayOf h.dt_local) := by
  refine ⟨pre, [h], rfl, by simp, by simp, ?_, hprev⟩
  intro p hp
  simp only [List.mem_singleton] at hp
  rw [hp]
  exact ⟨hg, rfl⟩

theorem dailyInv_step {pre : List HourPoint} {s : DayState} (h : HourPoint)
    (hsort : SortedHours (pre ++ [h])) (hinv : DailyInv pre s) :
    DailyInv (pre ++ [h]) (dayStep s h) := by
  obtain ⟨plast, hpl, hlast, hcur, hck, hik, hstart, hsound⟩ := hinv
  have hplmem : plast ∈ pre := List.mem_of_mem_getLast? hpl
  have hsortpre : SortedHours pre := sorted_of_append_left hsort
  have hpre_lt : ∀ p ∈ pre, p.dt_local < h.dt_local :=
    fun p hp => sorted_cross hsort p hp h (by simp)
  have hple : ∀ p ∈ pre, p.dt_local ≤ plast.dt_local :=
    sorted_le_getLast hsortpre hpl
  have hdayle : ∀ p ∈ pre, dayOf p.dt_local ≤ s.cur := by
    intro p hp
    rw [hcur]
    exact dayOf_mono (hple p hp)
  have hdayh : s.cur ≤ dayOf h.dt_local := by
    rw [hcur]
    exact dayOf_mono (le_of_lt (hpre_lt plast hplmem))
  have hglast : (pre ++ [h]).getLast? = some h := by
    rw [List.getLast?_concat]
  have hsound' := IntsSound_extend h hsort hsound
  cases hk : hasKey s.chart (dayOf h.dt_local) with
  | true =>
    have hdayeq : dayOf h.dt_local = s.cur := by
      obtain ⟨p, hp, hpd⟩ := (hck _).mp hk
      have h1 := hdayle p hp
      omega
    have hchartkeys : ∀ k, hasKey (appendAt s.chart s.cur h) k = true ↔
        ∃ p ∈ pre ++ [h], dayOf p.dt_local = k := by
      intro k
      rw [hasKey_appendAt]
      constructor
      · intro hkk
        obtain ⟨p, hp, hpd⟩ := (hck k).mp hkk
        exact ⟨p, List.mem_append_left _ hp, hpd⟩
      · rintro ⟨p, hp, hpd⟩
        rcases List.mem_append.mp hp with hm | hm
        · exact (hck k).mpr ⟨p, hm, hpd⟩
        · simp only [List.mem_singleton] at hm
          rw [hm] at hpd
          rw [← hpd]
          exact hk
    cases hg : h.is_good with
    | true =>
      cases hstc : s.start with
      | none =>
        rw [dayStep_k_good_none s h hk hstc hg]
        have hplbad : plast.is_good = false := by
          rw [hstc] at hstart
          exact hstart
        refine ⟨h, hglast, rfl, hdayeq.symm, hchartkeys, ?_, ?_, hsound'⟩
        · intro k
          rw [hasKey_appendAt]
          exact hik k
        · rw [← hdayeq]
          refine openDayRun_single hg ?_
          intro x hx
          rw [hpl] at hx
          simp only [Option.mem_def, Option.some.injEq] at hx
          rw [hx] at hplbad
          exact Or.inl hplbad
      | some st =>
        rw [dayStep_k_good_some s h st hk hstc hg]
        have hrunOld : OpenDayRun pre st s.cur := by
          rw [hstc] at hstart
          exact hstart
        refine ⟨h, hglast, rfl, hdayeq.symm, hchartkeys, ?_, ?_, hsound'⟩
        · intro k
          rw [hasKey_appendAt]
          exact hik k
        · exact openDayRun_extend hrunOld hg hdayeq
    | false =>
      cases hstc : s.start with
      | none =>
        rw [dayStep_k_bad_none s h hk hstc hg]
        refine ⟨h, hglast, rfl, hdayeq.symm, hchartkeys, ?_, hg, hsound'⟩
        intro k
        rw [hasKey_appendAt]
        exact hik k
      | some st =>
        rw [dayStep_k_bad_some s h st hk hstc hg]
        have hrunOld : OpenDayRun pre st s.cur := by
          rw [hstc] at hstart
          exact hstart
        have hstlt : st < h.dt_local := by
          obtain ⟨q, hq, hqs⟩ := (openDayRun_facts hsortpre hrunOld).2.2.1
          have h2 := hpre_lt q hq
          linarith [h2, hqs.le, hqs.ge]
        have hnewok : IntervalOkDaily (pre ++ [h]) s.cur (st, h.dt_local) :=
          openDayRun_close hsort hrunOld (Or.inl hg)
        refine ⟨h, hglast, rfl, hdayeq.symm, hchartkeys, ?_, hg, ?_⟩
        · intro k
          rw [hasKey_appendAt, hasKey_appendAt]
          exact hik k
        · intro dl hdl se hse
          obtain ⟨dl₀, hdl₀, hdleq⟩ := mem_appendAt hdl
          by_cases hdc : dl₀.1 = s.cur
          · rw [if_pos hdc] at hdleq
            rw [hdleq] at hse ⊢
            rcases List.mem_append.mp hse with hm | hm
            · exact hsound' dl₀ hdl₀ se hm
            · simp only [List.mem_singleton] at hm
              rw [hm]
              refine ⟨by rw [hdc]; exact hnewok, hstlt,
                ⟨h, by rw [hglast]; rfl, le_refl _⟩⟩
          · rw [if_neg hdc] at hdleq
            rw [hdleq] at hse ⊢
            exact hsound' dl₀ hdl₀ se hse
  | false =>
    have hdayne : ∀ p ∈ pre, dayOf p.dt_local ≠ dayOf h.dt_local := by
      intro p hp hpd
      have h2 : hasKey s.chart (dayOf h.dt_local) = true :=
        (hck _).mpr ⟨p, hp, hpd⟩
      rw [hk] at h2
      exact Bool.false_ne_true h2
    have hcurne : dayOf h.dt_local ≠ s.cur := by
      intro hc
      refine hdayne plast hplmem ?_
      rw [← hcur]
      exact hc.symm
    have hBchartkeys : ∀ k,
        hasKey (appendAt (addKey s.chart (dayOf h.dt_local))
          (dayOf h.dt_local) h) k = true ↔
        ∃ p ∈ pre ++ [h], dayOf p.dt_local = k := by
      intro k
      rw [hasKey_appendAt, hasKey_addKey, Bool.or_eq_true, decide_eq_true_eq]
      constructor
      · rintro (hkk | hdk)
        · obtain ⟨p, hp, hpd⟩ := (hck k).mp hkk
          exact ⟨p, List.mem_append_left _ hp, hpd⟩
        · exact ⟨h, List.mem_append_right _ (by simp), hdk⟩
      · rintro ⟨p, hp, hpd⟩
        rcases List.mem_append.mp hp with hm | hm
        · exact Or.inl ((hck k).mpr ⟨p, hm, hpd⟩)
        · simp only [List.mem_singleton] at hm
          rw [hm] at hpd
          exact Or.inr hpd
    cases hg : h.is_good with
    | true =>
      cases hstc : s.start with
      | none =>
        rw [dayStep_b_good_none s h hk hstc hg]
        have hplbad : plast.is_good = false := by
          rw [hstc] at hstart
          exact hstart
        refine ⟨h, hglast, rfl, rfl, hBchartkeys, ?_, ?_, ?_⟩
        · intro k
          rw [hasKey_appendAt, hasKey_addKey, hasKey_addKey, hik k]
        · refine openDayRun_single hg ?_
          intro x hx
          rw [hpl] at hx
          simp only [Option.mem_def, Option.some.injEq] at hx
          rw [hx] at hplbad
          exact Or.inl hplbad
        · intro dl hdl se hse
          rcases mem_addKey hdl with hm | hm
          · exact hsound' dl hm se hse
          · rw [hm] at hse
            exact absurd hse (List.not_mem_nil se)
      | some st =>
        rw [dayStep_b_good_some s h st hk hstc hg]
        have hrunOld : OpenDayRun pre st s.cur := by
          rw [hstc] at hstart
          exact hstart
        have hstlt : st < h.dt_local := by
          obtain ⟨q, hq, hqs⟩ := (openDayRun_facts hsortpre hrunOld).2.2.1
          have h2 := hpre_lt q hq
          linarith [h2, hqs.le, hqs.ge]
        have hnewok : IntervalOkDaily (pre ++ [h]) s.cur (st, h.dt_local) :=
          openDayRun_close hsort hrunOld (Or.inr hcurne)
        refine ⟨h, hglast, rfl, rfl, hBchartkeys, ?_, ?_, ?_⟩
        · intro k
          rw [hasKey_appendAt, hasKey_addKey, hasKey_addKey, hasKey_appendAt,
            hik k]
        · refine openDayRun_single hg ?_
          intro x hx
          rw [hpl] at hx
          simp only [Option.mem_def, Option.some.injEq] at hx
          exact Or.inr (hdayne x (hx ▸ hplmem))
        · intro dl hdl se hse
          rcases mem_addKey hdl with hm | hm
          · obtain ⟨dl₀, hdl₀, hdleq⟩ := mem_appendAt hm
            by_cases hdc : dl₀.1 = s.cur
            · rw [if_pos hdc] at hdleq
              rw [hdleq] at hse ⊢
              rcases List.mem_append.mp hse with hm2 | hm2
              · exact hsound' dl₀ hdl₀ se hm2
              · simp only [List.mem_singleton] at hm2
                rw [hm2]
                refine ⟨by rw [hdc]; exact hnewok, hstlt,
                  ⟨h, by rw [hglast]; rfl, le_refl _⟩⟩
            · rw [if_neg hdc] at hdleq
              rw [hdleq] at hse ⊢
              exact hsound' dl₀ hdl₀ se hse
          · rw [hm] at hse
            exact absurd hse (List.not_mem_nil se)
    | false =>
      cases hstc : s.start with
      | none =>
        rw [dayStep_b_bad_none s h hk hstc hg]
        refine ⟨h, hglast, rfl, rfl, hBchartkeys, ?_, hg, ?_⟩
        · intro k
          rw [hasKey_appendAt, hasKey_addKey, hasKey_addKey, hik k]
        · intro dl hdl se hse
          rcases mem_addKey hdl with hm | hm
          · exact hsound' dl hm se hse
          · rw [hm] at hse
            exact absurd hse (List.not_mem_nil se)
      | some st =>
        rw [dayStep_b_bad_some s h st hk hstc hg]
        have hrunOld : OpenDayRun pre st s.cur := by
          rw [hstc] at hstart
          exact hstart
        have hstlt : st < h.dt_local := by
          obtain ⟨q, hq, hqs⟩ := (openDayRun_facts hsortpre hrunOld).2.2.1
          have h2 := hpre_lt q hq
          linarith [h2, hqs.le, hqs.ge]
        have hnewok : IntervalOkDaily (pre ++ [h]) s.cur (st, h.dt_local) :=
          openDayRun_close hsort hrunOld (Or.inr hcurne)
        refine ⟨h, hglast, rfl, rfl, hBchartkeys, ?_, hg, ?_⟩
        · intro k
          rw [hasKey_appendAt, hasKey_addKey, hasKey_addKey, hasKey_appendAt,
            hik k]
        · intro dl hdl se hse
          rcases mem_addKey hdl with hm | hm
          · obtain ⟨dl₀, hdl₀, hdleq⟩ := mem_appendAt hm
            by_cases hdc : dl₀.1 = s.cur
            · rw [if_pos hdc] at hdleq
              rw [hdleq] at hse ⊢
              rcases List.mem_append.mp hse with hm2 | hm2
              · exact hsound' dl₀ hdl₀ se hm2
              · simp only [List.mem_singleton] at hm2
                rw [hm2]
                refine ⟨by rw [hdc]; exact hnewok, hstlt,
                  ⟨h, by rw [hglast]; rfl, le_refl _⟩⟩
            · rw [if_neg hdc] at hdleq
              rw [hdleq] at hse ⊢
              exact hsound' dl₀ hdl₀ se hse
          · rw [hm] at hse
            exact absurd hse (List.not_mem_nil se)

theorem dailyInv_first (h0 : HourPoint) :
    DailyInv [h0] (dayStep ⟨[(dayOf h0.dt_local, [])], [(dayOf h0.dt_local, [])],
      dayOf h0.dt_local, none, none⟩ h0) := by
  have hk : hasKey ([(dayOf h0.dt_local, [])] : List (ℤ × List HourPoint))
      (dayOf h0.dt_local) = true := by simp [hasKey]
  have hckgen : ∀ k, hasKey (appendAt ([(dayOf h0.dt_local, [])] :
      List (ℤ × List HourPoint)) (dayOf h0.dt_local) h0) k = true ↔
      ∃ p ∈ [h0], dayOf p.dt_local = k := by
    intro k
    rw [hasKey_appendAt]
    simp [hasKey, eq_comm]
  have hsnd : IntsSound [h0] [(dayOf h0.dt_local, [])] := by
    intro dl hdl se hse
    simp only [List.mem_singleton] at hdl
    rw [hdl] at hse
    exact absurd hse (List.not_mem_nil se)
  cases hg : h0.is_good with
  | true =>
    rw [dayStep_k_good_none _ h0 hk rfl hg]
    dsimp only
    refine ⟨h0, rfl, rfl, rfl, hckgen, ?_, ?_, hsnd⟩
    · intro k
      rw [hasKey_appendAt]
      rfl
    · have h2 := @openDayRun_single [] h0 hg (by simp)
      simpa using h2
  | false =>
    rw [dayStep_k_bad_none _ h0 hk rfl hg]
    dsimp only
    refine ⟨h0, rfl, rfl, rfl, hckgen, ?_, hg, hsnd⟩
    intro k
    rw [hasKey_appendAt]
    rfl

theorem dailyInv_foldl :
    ∀ (suf pre : List HourPoint) (s : DayState),
      SortedHours (pre ++ suf) → DailyInv pre s →
      DailyInv (pre ++ suf) (suf.foldl dayStep s) := by
  intro suf
  induction suf with
  | nil =>
    intro pre s _ hinv
    rw [List.foldl_nil, List.append_nil]
    exact hinv
  | cons h rest ih =>
    intro pre s hsort hinv
    rw [List.foldl_cons]
    have hsort1 : SortedHours ((pre ++ [h]) ++ rest) := by
      rwa [List.append_assoc, List.singleton_append]
    have hsort2 : SortedHours (pre ++ [h]) := sorted_of_append_left hsort1
    have hres := ih (pre ++ [h]) (dayStep s h) hsort1 (dailyInv_step h hsort2 hinv)
    rwa [List.append_assoc, List.singleton_append] at hres

theorem dailyFinish_sound {hs : List HourPoint} {s : DayState}
    (hsort : SortedHours hs) (hinv : DailyInv hs s) :
    ∀ dl ∈ (dailyFinish s).2, ∀ se ∈ dl.2, IntervalOkDaily hs dl.1 se := by
  obtain ⟨plast, hpl, hlastS, hcurS, hckS, hikS, hstartS, hsoundS⟩ := hinv
  intro dl hdl se hse
  unfold dailyFinish at hdl
  cases hstc : s.start with
  | none =>
    rw [hstc] at hdl
    dsimp only at hdl
    exact (hsoundS dl hdl se hse).1
  | some st =>
    rw [hstc, hlastS] at hdl
    dsimp only at hdl
    obtain ⟨dl₀, hdl₀, hdleq⟩ := mem_appendAt hdl
    have hrun : OpenDayRun hs st s.cur := by
      rw [hstc] at hstartS
      exact hstartS
    by_cases hdc : dl₀.1 = s.cur
    · rw [if_pos hdc] at hdleq
      rw [hdleq] at hse ⊢
      rcases List.mem_append.mp hse with hm | hm
      · exact (hsoundS dl₀ hdl₀ se hm).1
      · simp only [List.mem_singleton] at hm
        rw [hm]
        dsimp only
        rw [hdc]
        refine openDayRun_close_end hsort hrun ?_
        intro p hp
        have h2 := sorted_le_getLast hsort hpl p hp
        linarith
    · rw [if_neg hdc] at hdleq
      rw [hdleq] at hse ⊢
      exact (hsoundS dl₀ hdl₀ se hse).1

theorem dailyPhase_sound (hs : List HourPoint) (hsort : SortedHours hs) :
    ∀ dl ∈ (dailyPhase hs).2, ∀ se ∈ dl.2, IntervalOkDaily hs dl.1 se := by
  cases hs with
  | nil =>
    intro dl hdl
    unfold dailyPhase at hdl
    exact absurd hdl (List.not_mem_nil dl)
  | cons h0 rest =>
    have hPhase : dailyPhase (h0 :: rest) =
        dailyFinish (rest.foldl dayStep (dayStep
          ⟨[(dayOf h0.dt_local, [])], [(dayOf h0.dt_local, [])],
            dayOf h0.dt_local, none, none⟩ h0)) := by
      unfold dailyPhase
      dsimp only
      rw [List.foldl_cons]
    rw [hPhase]
    have hinvN : DailyInv (h0 :: rest)
        (rest.foldl dayStep (dayStep
          ⟨[(dayOf h0.dt_local, [])], [(dayOf h0.dt_local, [])],
            dayOf h0.dt_local, none, none⟩ h0)) := by
      have h1 := dailyInv_foldl rest [h0] _ (by simpa using hsort)
        (dailyInv_first h0)
      simpa using h1
    exact dailyFinish_sound hsort hinvN

theorem hourlyData_map_dt {w : Option WeatherData} {a : Option AqiData}
    {inp : WeatherInputs} {hs : List HourPoint} {times : List ℤ}
    (hh : hourlyData w a inp = .ok hs) (ht : weatherTimes w = some times) :
    hs.map HourPoint.dt_local = times := by
  cases w with
  | none => exact Option.noConfusion (show (none : Option (List ℤ)) = some times from ht)
  | some wd =>
    cases wd with
    | mk hourly =>
      cases hourly with
      | none =>
        exact Option.noConfusion (show (none : Option (List ℤ)) = some times from ht)
      | some wh =>
        cases wh with
        | mk time temps dews precs pps =>
          cases time with
          | none =>
            exact Option.noConfusion
              (show (none : Option (List ℤ)) = some times from ht)
          | some ts =>
            have hts : ts = times := by
              have h2 : some ts = some times := ht
              exact Option.some.inj h2
            subst hts
            cases temps with
            | none =>
              exact Except.noConfusion
                (show Except.error DataError.missingArray = Except.ok hs from hh)
            | some tl =>
              cases dews with
              | none =>
                exact Except.noConfusion
                  (show Except.error DataError.missingArray = Except.ok hs from hh)
              | some dl =>
                exact buildHourly_map_dt inp _ _ _ tl dl _ _ ts 0 hs hh

theorem hourlyData_wS :
    hourlyData wS none inpW =
      .ok [goodHP 1320, goodHP 1380, goodHP 1440, goodHP 1500, badHP 1560] := by
  have h : hourlyData wS none inpW =
      .ok [evalHour inpW refW false noDict 1320 (some 70) (some 69) (some 0) 0,
           evalHour inpW refW false noDict 1380 (some 70) (some 69) (some 0) 0,
           evalHour inpW refW false noDict 1440 (some 70) (some 69) (some 0) 0,
           evalHour inpW refW false noDict 1500 (some 70) (some 69) (some 0) 0,
           evalHour inpW refW false noDict 1560 none (some 69) (some 0) 0] := rfl
  rw [h, evalHour_goodW noDict 1320 rfl, evalHour_goodW noDict 1380 rfl,
    evalHour_goodW noDict 1440 rfl, evalHour_goodW noDict 1500 rfl,
    evalHour_badW inpW refW false noDict 1560 rfl]

theorem find_wS :
    find_optimal_periods wS none inpW 0 =
      .ok ⟨[(1320, 1560)],
        [(0, [goodHP 1320, goodHP 1380]),
         (1, [goodHP 1440, goodHP 1500, badHP 1560])],
        [(0, [(1320, 1440)]), (1, [(1440, 1560)])]⟩ := by
  rw [find_eq_of_hourly_ok hourlyData_wS rfl]
  have hover : overallPeriods [1320, 1380, 1440, 1500, 1560] 0
      [goodHP 1320, goodHP 1380, goodHP 1440, goodHP 1500, badHP 1560] =
      [(1320, 1560)] := by
    norm_num [overallPeriods, overallScan, goodHP, badHP]
  have hdaily : dailyPhase
      [goodHP 1320, goodHP 1380, goodHP 1440, goodHP 1500, badHP 1560] =
      ([(0, [goodHP 1320, goodHP 1380]),
        (1, [goodHP 1440, goodHP 1500, badHP 1560])],
       [(0, [(1320, 1440)]), (1, [(1440, 1560)])]) := by
    norm_num [dailyPhase, dailyFinish, dayStep, hasKey, appendAt, addKey,
      goodHP, badHP,
      show dayOf 1320 = 0 from rfl, show dayOf 1380 = 0 from rfl,
      show dayOf 1440 = 1 from rfl, show dayOf 1500 = 1 from rfl,
      show dayOf 1560 = 1 from rfl]
  rw [hover, hdaily]

theorem hourlyData_wF : hourlyData wF none inpW = .ok [goodHP 1380] := by
  have h : hourlyData wF none inpW =
      .ok [evalHour inpW refW false noDict 1380 (some 70) (some 69) (some 0) 0] := rfl
  rw [h, evalHour_goodW noDict 1380 rfl]

theorem find_wF (δ : ℤ) :
    find_optimal_periods wF none inpW δ =
      .ok ⟨[(1380, 1380 + δ + 60)], [(0, [goodHP 1380])],
        [(0, [(1380, 1440)])]⟩ := by
  rw [find_eq_of_hourly_ok hourlyData_wF rfl]
  have hover : overallPeriods [1380] δ [goodHP 1380] =
      [(1380, 1380 + δ + 60)] := by
    norm_num [overallPeriods, overallScan, goodHP]
  have hdaily : dailyPhase [goodHP 1380] =
      ([(0, [goodHP 1380])], [(0, [(1380, 1440)])]) := by
    norm_num [dailyPhase, dailyFinish, dayStep, hasKey, appendAt, addKey,
      goodHP, show dayOf 1380 = 0 from rfl]
  rw [hover, hdaily]

theorem openDayRun_last_good {pre : List HourPoint} {st d : ℤ}
    (h : OpenDayRun pre st d) : ∃ x ∈ pre.getLast?, x.is_good = true := by
  obtain ⟨L₁, R, heq, hne, hhead, hgood, hprev⟩ := h
  cases hR : R.getLast? with
  | none => exact absurd (List.getLast?_eq_none_iff.mp hR) hne
  | some r =>
    have hrmem : r ∈ R := by
      obtain ⟨hne', hx⟩ := List.mem_getLast?_eq_getLast (x := r) (by rw [hR]; rfl)
      rw [hx]
      exact List.getLast_mem hne'
    refine ⟨r, ?_, (hgood r hrmem).1⟩
    rw [heq, List.getLast?_append_of_ne_nil L₁ hne, hR]
    rfl

theorem dailyInv_start_none {pre : List HourPoint} {s : DayState}
    (hinv : DailyInv pre s) (hbad : ∀ x ∈ pre.getLast?, x.is_good = false) :
    s.start = none := by
  obtain ⟨plast, hpl, _, _, _, _, hstart, _⟩ := hinv
  cases hst : s.start with
  | none => rfl
  | some st =>
    rw [hst] at hstart
    obtain ⟨x, hx, hxg⟩ := openDayRun_last_good hstart
    rw [hbad x hx] at hxg
    exact Bool.noConfusion hxg

theorem dayRun_absorb :
    ∀ (R : List HourPoint) (s : DayState) (st : ℤ),
      s.start = some st →
      (∀ p ∈ R, p.is_good = true ∧ dayOf p.dt_local = s.cur) →
      hasKey s.chart s.cur = true →
      (R.foldl dayStep s).start = some st ∧
      (R.foldl dayStep s).cur = s.cur ∧
      (R.foldl dayStep s).ints = s.ints ∧
      (∀ k, hasKey (R.foldl dayStep s).chart k = hasKey s.chart k) := by
  intro R
  induction R with
  | nil =>
    intro s st hst _ _
    rw [List.foldl_nil]
    exact ⟨hst, rfl, rfl, fun _ => rfl⟩
  | cons h rest ih =>
    intro s st hst hR hk
    have hgd := hR h (by simp)
    have hk' : hasKey s.chart (dayOf h.dt_local) = true := by
      rw [hgd.2]
      exact hk
    rw [List.foldl_cons, dayStep_k_good_some s h st hk' hst hgd.1]
    have hres := ih ⟨appendAt s.chart s.cur h, s.ints, s.cur, some st,
        some h.dt_local⟩ st rfl
      (fun p hp => hR p (List.mem_cons_of_mem h hp))
      (by dsimp only; rw [hasKey_appendAt]; exact hk)
    refine ⟨hres.1, hres.2.1, hres.2.2.1, ?_⟩
    intro k
    rw [hres.2.2.2 k]
    dsimp only
    rw [hasKey_appendAt]

theorem c3_midstate (A R1 : List HourPoint) (p1 : HourPoint) (d0 : ℤ)
    (hd0 : ∃ h0, (A ++ R1).head? = some h0 ∧ d0 = dayOf h0.dt_local)
    (hsort : SortedHours (A ++ R1))
    (hA : ∀ x ∈ A.getLast?, x.is_good = false)
    (h1 : R1.head? = some p1)
    (hR1 : ∀ p ∈ R1, p.is_good = true ∧ dayOf p.dt_local = dayOf p1.dt_local) :
    DailyInv (A ++ R1)
      ((A ++ R1).foldl dayStep ⟨[(d0, [])], [(d0, [])], d0, none, none⟩) ∧
    ((A ++ R1).foldl dayStep ⟨[(d0, [])], [(d0, [])], d0, none, none⟩).start =
      some p1.dt_local ∧
    ((A ++ R1).foldl dayStep ⟨[(d0, [])], [(d0, [])], d0, none, none⟩).cur =
      dayOf p1.dt_local ∧
    hasKey ((A ++ R1).foldl dayStep
      ⟨[(d0, [])], [(d0, [])], d0, none, none⟩).chart (dayOf p1.dt_local) =
      true := by
  cases R1 with
  | nil => exact absurd h1 (by simp)
  | cons q R1t =>
  have hq : p1 = q := (Option.some.inj h1).symm
  subst hq
  cases A with
  | nil =>
    obtain ⟨h0, hh0, hd0eq⟩ := hd0
    have h0p : p1 = h0 := Option.some.inj (show some p1 = some h0 from hh0)
    subst h0p
    subst hd0eq
    simp only [List.nil_append] at hsort ⊢
    have hkinit : hasKey ([(dayOf p1.dt_local, [])] : List (ℤ × List HourPoint))
        (dayOf p1.dt_local) = true := by simp [hasKey]
    have hg1 : p1.is_good = true := (hR1 p1 (by simp)).1
    have hstep := dayStep_k_good_none
      ⟨[(dayOf p1.dt_local, [])], [(dayOf p1.dt_local, [])], dayOf p1.dt_local,
        none, none⟩ p1 hkinit rfl hg1
    rw [List.foldl_cons, hstep]
    have habs := dayRun_absorb R1t
      ⟨appendAt [(dayOf p1.dt_local, [])] (dayOf p1.dt_local) p1,
        [(dayOf p1.dt_local, [])], dayOf p1.dt_local, some p1.dt_local,
        some p1.dt_local⟩ p1.dt_local rfl
      (fun p hp => hR1 p (List.mem_cons_of_mem p1 hp))
      (by dsimp only; rw [hasKey_appendAt]; exact hkinit)
    refine ⟨?_, habs.1, habs.2.1, ?_⟩
    · have hinv := dailyInv_foldl R1t [p1]
        (dayStep ⟨[(dayOf p1.dt_local, [])], [(dayOf p1.dt_local, [])],
          dayOf p1.dt_local, none, none⟩ p1) (by simpa using hsort)
        (dailyInv_first p1)
      rw [hstep] at hinv
      simpa using hinv
    · rw [habs.2.2.2]
      dsimp only
      rw [hasKey_appendAt]
      exact hkinit
  | cons a0 At =>
    obtain ⟨h0, hh0, hd0eq⟩ := hd0
    have h0a : a0 = h0 := Option.some.inj (show some a0 = some h0 from hh0)
    subst h0a
    subst hd0eq
    have hsortA : SortedHours (a0 :: At) := sorted_of_append_left hsort
    rw [List.foldl_append, List.foldl_cons]
    set sA : DayState := (a0 :: At).foldl dayStep ⟨[(dayOf a0.dt_local, [])],
      [(dayOf a0.dt_local, [])], dayOf a0.dt_local, none, none⟩ with hsAdef
    have hinvA : DailyInv (a0 :: At) sA := by
      have h2 := dailyInv_foldl At [a0]
        (dayStep ⟨[(dayOf a0.dt_local, [])], [(dayOf a0.dt_local, [])],
          dayOf a0.dt_local, none, none⟩ a0) (by simpa using hsortA)
        (dailyInv_first a0)
      rw [hsAdef, List.foldl_cons]
      simpa using h2
    have hstA := dailyInv_start_none hinvA hA
    have hinvA' := hinvA
    obtain ⟨plast, hpl, hlastA, hcurA, hckA, hikA, hsmA, hsndA⟩ := hinvA'
    have hplmem : plast ∈ (a0 :: At) := by
      obtain ⟨hne', hx⟩ := List.mem_getLast?_eq_getLast (x := plast)
        (by rw [hpl]; rfl)
      rw [hx]
      exact List.getLast_mem hne'
    have hplt : plast.dt_local < p1.dt_local :=
      sorted_cross hsort plast hplmem p1 (by simp)
    have hcurle : sA.cur ≤ dayOf p1.dt_local := by
      rw [hcurA]
      exact dayOf_mono (le_of_lt hplt)
    have hg1 : p1.is_good = true := (hR1 p1 (by simp)).1
    cases hkd : hasKey sA.chart (dayOf p1.dt_local) with
    | true =>
      have hcureq : sA.cur = dayOf p1.dt_local := by
        obtain ⟨p, hpmem, hpd⟩ := (hckA _).mp hkd
        have h2 : p.dt_local ≤ plast.dt_local :=
          sorted_le_getLast hsortA (by rw [hpl]; rfl) p hpmem
        have h3 : dayOf p.dt_local ≤ dayOf plast.dt_local := dayOf_mono h2
        refine le_antisymm hcurle ?_
        rw [hcurA, ← hpd]
        exact h3
      have hstep := dayStep_k_good_none sA p1 hkd hstA hg1
      rw [hstep]
      have hk1 : hasKey (appendAt sA.chart sA.cur p1) sA.cur = true := by
        rw [hasKey_appendAt, hcureq]
        exact hkd
      have habs := dayRun_absorb R1t
        ⟨appendAt sA.chart sA.cur p1, sA.ints, sA.cur, some p1.dt_local,
          some p1.dt_local⟩ p1.dt_local rfl
        (fun p hp => ⟨(hR1 p (List.mem_cons_of_mem p1 hp)).1, by
          dsimp only
          rw [(hR1 p (List.mem_cons_of_mem p1 hp)).2]
          exact hcureq.symm⟩)
        (by dsimp only; exact hk1)
      refine ⟨?_, habs.1, ?_, ?_⟩
      · have h2 := dailyInv_foldl (p1 :: R1t) (a0 :: At) sA hsort hinvA
        rw [List.foldl_cons, hstep] at h2
        exact h2
      · rw [habs.2.1]
        exact hcureq
      · rw [habs.2.2.2]
        dsimp only
        rw [hasKey_appendAt]
        exact hkd
    | false =>
      have hstep := dayStep_b_good_none sA p1 hkd hstA hg1
      rw [hstep]
      have hk1 : hasKey (appendAt (addKey sA.chart (dayOf p1.dt_local))
          (dayOf p1.dt_local) p1) (dayOf p1.dt_local) = true := by
        rw [hasKey_appendAt, hasKey_addKey]
        simp
      have habs := dayRun_absorb R1t
        ⟨appendAt (addKey sA.chart (dayOf p1.dt_local)) (dayOf p1.dt_local) p1,
          addKey sA.ints (dayOf p1.dt_local), dayOf p1.dt_local,
          some p1.dt_local, some p1.dt_local⟩ p1.dt_local rfl
        (fun p hp => ⟨(hR1 p (List.mem_cons_of_mem p1 hp)).1,
          (hR1 p (List.mem_cons_of_mem p1 hp)).2⟩)
        (by dsimp only; exact hk1)
      refine ⟨?_, habs.1, habs.2.1, ?_⟩
      · have h2 := dailyInv_foldl (p1 :: R1t) (a0 :: At) sA hsort hinvA
        rw [List.foldl_cons, hstep] at h2
        exact h2
      · rw [habs.2.2.2]
        dsimp only
        exact hk1

/-- C3: when a contiguous run of admissible hours straddles a local-midnight
day boundary — the evaluated hours split as `A ++ R1 ++ R2 ++ B` with `R1`
the part of the run on the outgoing local day, `R2` the part on the (distinct)
new local day, a non-admissible sample (if any) just before and just after the
run, and the system timezone agreeing with the forecast timezone
(`sysDelta = 0`) — the per-day output puts an interval closed at the first
hour of the new date into the outgoing day's bucket and an interval opening
at that hour into the new day's bucket, while the overall interval list keeps
a single interval opening at the run's first hour and ending past every hour
of the run. -/
theorem C3_day_boundary_split (w : Option WeatherData) (aqi : Option AqiData)
    (inp : WeatherInputs) (hs A R1 R2 B : List HourPoint)
    (p1 pk : HourPoint) (times : List ℤ) (r : ForecastResult)
    (hh : hourlyData w aqi inp = .ok hs)
    (ht : weatherTimes w = some times)
    (hr : find_optimal_periods w aqi inp 0 = .ok r)
    (hsort : SortedHours hs)
    (hsplit : hs = A ++ (R1 ++ (R2 ++ B)))
    (hA : ∀ x ∈ A.getLast?, x.is_good = false)
    (h1 : R1.head? = some p1) (hk2 : R2.head? = some pk)
    (hR1 : ∀ p ∈ R1, p.is_good = true ∧ dayOf p.dt_local = dayOf p1.dt_local)
    (hR2 : ∀ p ∈ R2, p.is_good = true ∧ dayOf p.dt_local = dayOf pk.dt_local)
    (hd : dayOf p1.dt_local ≠ dayOf pk.dt_local)
    (hB : ∀ b ∈ B.head?, b.is_good = false) :
    InBucket r.daily_good_intervals (dayOf p1.dt_local)
      (p1.dt_local, pk.dt_local) ∧
    (∃ e2, InBucket r.daily_good_intervals (dayOf pk.dt_local)
      (pk.dt_local, e2)) ∧
    (∃ e, (p1.dt_local, e) ∈ r.periods ∧ ∀ p ∈ R1 ++ R2, p.dt_local < e) := by
  rw [find_eq_of_hourly_ok hh ht] at hr
  have hrr : r = ⟨overallPeriods times 0 hs, (dailyPhase hs).1,
      (dailyPhase hs).2⟩ := (Except.ok.inj hr).symm
  subst hrr
  have htimes : hs.map HourPoint.dt_local = times := hourlyData_map_dt hh ht
  cases R2 with
  | nil => exact absurd hk2 (by simp)
  | cons qk R2t =>
  have hqk : pk = qk := (Option.some.inj hk2).symm
  subst hqk
  have hp1mem : p1 ∈ R1 := List.mem_of_mem_head? (by rw [h1]; rfl)
  have hsort2 : SortedHours ((A ++ R1) ++ ((pk :: R2t) ++ B)) := by
    rw [hsplit] at hsort
    rwa [← List.append_assoc] at hsort
  have hsortAR1 : SortedHours (A ++ R1) := sorted_of_append_left hsort2
  have ht1tk : p1.dt_local < pk.dt_local :=
    sorted_cross hsort2 p1 (List.mem_append_right A hp1mem) pk (by simp)
  have hd12 : dayOf p1.dt_local < dayOf pk.dt_local :=
    lt_of_le_of_ne (dayOf_mono (le_of_lt ht1tk)) hd
  have hhead : ∃ h0, (A ++ R1).head? = some h0 ∧ hs.head? = some h0 := by
    cases hAc : A with
    | nil =>
      cases hR1c : R1 with
      | nil =>
        rw [hR1c] at h1
        exact absurd h1 (by simp)
      | cons a l =>
        refine ⟨a, rfl, ?_⟩
        rw [hsplit, hAc, hR1c]
        rfl
    | cons a At =>
      refine ⟨a, rfl, ?_⟩
      rw [hsplit, hAc]
      rfl
  obtain ⟨h0, hh0AR, hh0hs⟩ := hhead
  have hphase : dailyPhase hs = dailyFinish (hs.foldl dayStep
      ⟨[(dayOf h0.dt_local, [])], [(dayOf h0.dt_local, [])],
        dayOf h0.dt_local, none, none⟩) := by
    cases hhs : hs with
    | nil =>
      rw [hhs] at hh0hs
      exact absurd hh0hs (by simp)
    | cons x xs =>
      rw [hhs] at hh0hs
      have hx : x = h0 := Option.some.inj hh0hs
      rw [← hx]
      rfl
  have hdailyB : InBucket (dailyPhase hs).2 (dayOf p1.dt_local)
      (p1.dt_local, pk.dt_local) ∧
      ∃ e2, InBucket (dailyPhase hs).2 (dayOf pk.dt_local)
        (pk.dt_local, e2) := by
    set sM : DayState := (A ++ R1).foldl dayStep
      ⟨[(dayOf h0.dt_local, [])], [(dayOf h0.dt_local, [])],
        dayOf h0.dt_local, none, none⟩ with hsM
    have hmid := c3_midstate A R1 p1 (dayOf h0.dt_local) ⟨h0, hh0AR, rfl⟩
      hsortAR1 hA h1 hR1
    rw [← hsM] at hmid
    obtain ⟨hM_inv, hMst, hMcur, hMkey⟩ := hmid
    have hinv' := hM_inv
    obtain ⟨plast, hpl, hlastM, hcurM, hckM, hikM, hsmM, hsndM⟩ := hinv'
    have hkd2 : hasKey sM.chart (dayOf pk.dt_local) = false := by
      cases hkval : hasKey sM.chart (dayOf pk.dt_local) with
      | false => rfl
      | true =>
        obtain ⟨p, hpmem, hpd⟩ := (hckM _).mp hkval
        have hple : dayOf p.dt_local ≤ dayOf p1.dt_local := by
          rcases List.mem_append.mp hpmem with hA' | hR1'
          · exact dayOf_mono (le_of_lt (sorted_cross hsortAR1 p hA' p1 hp1mem))
          · rw [(hR1 p hR1').2]
        rw [hpd] at hple
        exact absurd hd12 (not_lt.mpr hple)
    have hgk : pk.is_good = true := (hR2 pk (by simp)).1
    have hstep := dayStep_b_good_some sM pk p1.dt_local hkd2 hMst hgk
    have hfold : hs.foldl dayStep ⟨[(dayOf h0.dt_local, [])],
        [(dayOf h0.dt_local, [])], dayOf h0.dt_local, none, none⟩ =
        (R2t ++ B).foldl dayStep (dayStep sM pk) := by
      rw [hsplit, List.cons_append, List.foldl_append, List.foldl_append,
        List.foldl_cons, ← List.foldl_append, ← hsM]
    have hb1 : InBucket (dayStep sM pk).ints (dayOf p1.dt_local)
        (p1.dt_local, pk.dt_local) := by
      rw [hstep]
      dsimp only
      rw [hMcur]
      exact InBucket_addKey _ (InBucket_appendAt_self _
        (by rw [hikM]; exact hMkey))
    have hfacts := dayStep_facts sM pk (fun k => (hikM k).symm)
      (by rw [hMcur, hikM]; exact hMkey)
    have hclose := daily_open_closes (R2t ++ B) (dayStep sM pk) pk.dt_local
      pk.dt_local (by rw [hstep]) hfacts.1 hfacts.2.1 hfacts.2.2
    obtain ⟨e2, he2⟩ := hclose
    have hcur2 : (dayStep sM pk).cur = dayOf pk.dt_local := by rw [hstep]
    rw [hcur2] at he2
    refine ⟨?_, e2, ?_⟩
    · rw [hphase, hfold]
      exact InBucket_finish (InBucket_foldl (R2t ++ B) _ hb1)
    · rw [hphase, hfold]
      exact he2
  have hoverall : ∃ e, (p1.dt_local, e) ∈ overallPeriods times 0 hs ∧
      ∀ p ∈ R1 ++ (pk :: R2t), p.dt_local < e := by
    have hsA : (overallScan none A).2 = none := by
      cases hAl : A.getLast? with
      | none =>
        rw [List.getLast?_eq_none_iff.mp hAl, overallScan_nil]
      | some x =>
        exact overallScan_state_none A none x hAl (hA x (by rw [hAl]; rfl))
    cases R1 with
    | nil => exact absurd h1 (by simp)
    | cons q1 R1t =>
    have hq1 : p1 = q1 := (Option.some.inj h1).symm
    subst hq1
    have hg1 : p1.is_good = true := (hR1 p1 (by simp)).1
    have htail : overallScan none ((p1 :: R1t) ++ ((pk :: R2t) ++ B)) =
        overallScan (some p1.dt_local) B := by
      rw [List.cons_append, overallScan_none_cons, if_pos hg1,
        ← List.append_assoc]
      exact overallScan_absorb (R1t ++ (pk :: R2t)) p1.dt_local
        (by
          intro p hp
          rcases List.mem_append.mp hp with hm | hm
          · exact (hR1 p (List.mem_cons_of_mem p1 hm)).1
          · exact (hR2 p hm).1) B
    have hscan : overallScan none hs =
        ((overallScan none A).1 ++ (overallScan (some p1.dt_local) B).1,
         (overallScan (some p1.dt_local) B).2) := by
      rw [hsplit, overallScan_append, hsA, htail]
    cases B with
    | nil =>
      have hne2 : ((pk :: R2t) : List HourPoint) ≠ [] := by simp
      obtain ⟨r2l, hr2l⟩ := Option.isSome_iff_exists.mp
        (List.getLast?_isSome.mpr hne2)
      have hlasths : hs.getLast? = some r2l := by
        rw [hsplit, List.append_nil,
          List.getLast?_append_of_ne_nil A (by simp),
          List.getLast?_append_of_ne_nil (p1 :: R1t) (by simp)]
        exact hr2l
      have htl : times.getLast? = some r2l.dt_local := by
        rw [← htimes, List.getLast?_map, hlasths]
        rfl
      refine ⟨r2l.dt_local + 0 + 60, ?_, ?_⟩
      · unfold overallPeriods
        dsimp only
        rw [hscan, overallScan_nil, htl]
        dsimp only
        exact List.mem_append_right _ (by simp)
      · intro p hp
        have hphs : p ∈ hs := by
          rw [hsplit]
          rcases List.mem_append.mp hp with h3 | h3
          · exact List.mem_append_right A (List.mem_append_left _ h3)
          · exact List.mem_append_right A (List.mem_append_right _
              (List.mem_append_left _ h3))
        have h2 := sorted_le_getLast hsort (by rw [hlasths]; rfl) p hphs
        omega
    | cons b0 Bt =>
      have hb0 : b0.is_good = false := hB b0 rfl
      refine ⟨b0.dt_local, ?_, ?_⟩
      · unfold overallPeriods
        dsimp only
        rw [hscan, overallScan_some_bad _ _ hb0]
        dsimp only
        have hin : (p1.dt_local, b0.dt_local) ∈
            (overallScan none A).1 ++ ((p1.dt_local, b0.dt_local) ::
              (overallScan none Bt).1) :=
          List.mem_append_right _ (by simp)
        cases h2 : (overallScan none Bt).2 <;> cases h3 : times.getLast? <;>
          first
          | exact hin
          | exact List.mem_append_left _ hin
      · intro p hp
        have hsort3 : SortedHours (((A ++ (p1 :: R1t)) ++ (pk :: R2t)) ++
            (b0 :: Bt)) := by
          rw [hsplit, ← List.append_assoc, ← List.append_assoc] at hsort
          exact hsort
        refine sorted_cross hsort3 p ?_ b0 (by simp)
        rcases List.mem_append.mp hp with h3 | h3
        · exact List.mem_append_left _ (List.mem_append_right A h3)
        · exact List.mem_append_right _ h3
  exact ⟨hdailyB.1, hdailyB.2, hoverall⟩

theorem sorted_wS : SortedHours [goodHP 1320, goodHP 1380, goodHP 1440,
    goodHP 1500, badHP 1560] := by
  norm_num [SortedHours, List.pairwise_cons, goodHP, badHP]

/-- C2 (amended): every interval in the overall list is a maximal admissible
run against the evaluated hours (assuming the system timezone agrees with the
forecast timezone, `sysDelta = 0`), and every interval in a per-day bucket is
maximal up to day boundaries: the adjacent samples are non-admissible or lie
on a local day different from the bucket's day.  The unqualified claim is
false for per-day buckets (see the counterexample): a run straddling local
midnight is split, so a bucket interval can end at an admissible hour. -/
theorem C2_interval_maximality (w : Option WeatherData) (a : Option AqiData)
    (inp : WeatherInputs) (hs : List HourPoint) (times : List ℤ)
    (r : ForecastResult)
    (hh : hourlyData w a inp = .ok hs) (ht : weatherTimes w = some times)
    (hr : find_optimal_periods w a inp 0 = .ok r) (hsort : SortedHours hs) :
    (∀ se ∈ r.periods, IntervalOkOverall hs se) ∧
    (∀ dl ∈ r.daily_good_intervals, ∀ se ∈ dl.2,
      IntervalOkDaily hs dl.1 se) := by
  rw [find_eq_of_hourly_ok hh ht] at hr
  have hrr : r = ⟨overallPeriods times 0 hs, (dailyPhase hs).1,
      (dailyPhase hs).2⟩ := (Except.ok.inj hr).symm
  subst hrr
  exact ⟨overallPeriods_sound times hs (hourlyData_map_dt hh ht) hsort,
    dailyPhase_sound hs hsort⟩

theorem C2_interval_maximality_witness :
    (∀ se ∈ ([((1320 : ℤ), (1560 : ℤ))] : List (ℤ × ℤ)),
      IntervalOkOverall [goodHP 1320, goodHP 1380, goodHP 1440, goodHP 1500,
        badHP 1560] se) ∧
    (∀ dl ∈ ([((0 : ℤ), [((1320 : ℤ), (1440 : ℤ))]),
        ((1 : ℤ), [((1440 : ℤ), (1560 : ℤ))])] : List (ℤ × List (ℤ × ℤ))),
      ∀ se ∈ dl.2, IntervalOkDaily [goodHP 1320, goodHP 1380, goodHP 1440,
        goodHP 1500, badHP 1560] dl.1 se) :=
  C2_interval_maximality wS none inpW _ _ _ hourlyData_wS rfl find_wS sorted_wS

/-- C2 counterexample: on the five-hour input whose admissible run straddles
local midnight, the day-0 bucket holds the interval `[1320, 1440)` although
the sample at its end instant (`goodHP 1440`) is admissible, so the produced
interval is not a maximal admissible run in the unqualified sense the claim
states for all produced intervals. -/
theorem C2_counterexample :
    ∃ r hs, find_optimal_periods wS none inpW 0 = .ok r ∧
      hourlyData wS none inpW = .ok hs ∧
      ∃ dl ∈ r.daily_good_intervals, ∃ se ∈ dl.2,
        ¬ IntervalOkOverall hs se := by
  refine ⟨_, _, find_wS, hourlyData_wS, (0, [(1320, 1440)]), by simp,
    (1320, 1440), by simp, ?_⟩
  intro hok
  have h4 := hok.2.2.2
  rw [List.chain'_cons, List.chain'_cons] at h4
  have h5 := h4.2.1 (by norm_num [goodHP]) (by norm_num [goodHP])
  simp [goodHP] at h5

theorem C3_day_boundary_split_witness :
    InBucket [(0, [(1320, 1440)]), (1, [(1440, 1560)])] 0 (1320, 1440) ∧
    (∃ e2, InBucket [(0, [(1320, 1440)]), (1, [(1440, 1560)])] 1
      (1440, e2)) ∧
    (∃ e, ((1320 : ℤ), e) ∈ [((1320 : ℤ), (1560 : ℤ))] ∧
      ∀ p ∈ [goodHP 1320, goodHP 1380] ++ [goodHP 1440, goodHP 1500],
        p.dt_local < e) :=
  C3_day_boundary_split wS none inpW _ [] [goodHP 1320, goodHP 1380]
    [goodHP 1440, goodHP 1500] [badHP 1560] (goodHP 1320) (goodHP 1440) _ _
    hourlyData_wS rfl find_wS sorted_wS rfl (by simp) rfl rfl
    (by
      intro p hp
      simp only [List.mem_cons, List.not_mem_nil, or_false] at hp
      rcases hp with rfl | rfl
      · exact ⟨rfl, rfl⟩
      · exact ⟨rfl, rfl⟩)
    (by
      intro p hp
      simp only [List.mem_cons, List.not_mem_nil, or_false] at hp
      rcases hp with rfl | rfl
      · exact ⟨rfl, rfl⟩
      · exact ⟨rfl, rfl⟩)
    (by decide) (by simp [badHP])

/-- C7: the horizon-final close of a still-open interval diverges between the
two outputs.  On a single-admissible-hour horizon (23:00 wall clock,
`goodHP 1380`), the daily bucket closes the interval at
`last_dt_local + 1 hour` (`1380 + 60 = 1440`), but the overall list closes it
at `datetime.fromisoformat(times[-1]).astimezone(tz) + 1 hour`, which
reinterprets the naive final timestamp from the system timezone: with the
system timezone 240 minutes ahead of the forecast timezone
(`sysDelta = -240`) the overall end instant is `1200 ≠ 1440`; the claimed
`last sample + 1 hour` holds for the overall list only when the two timezones
coincide (`sysDelta = 0`). -/
theorem C7_horizon_close_divergence :
    (find_optimal_periods wF none inpW (-240) =
      .ok ⟨[(1380, 1200)], [(0, [goodHP 1380])], [(0, [(1380, 1440)])]⟩) ∧
    (find_optimal_periods wF none inpW 0 =
      .ok ⟨[(1380, 1440)], [(0, [goodHP 1380])], [(0, [(1380, 1440)])]⟩) ∧
    (1380 + 60 = (1440 : ℤ)) ∧ ((1200 : ℤ) ≠ 1440) := by
  refine ⟨?_, ?_, by norm_num, by norm_num⟩
  · have h := find_wF (-240)
    norm_num at h
    exact h
  · have h := find_wF 0
    norm_num at h
    exact h

theorem C1_admissibility_conjunction_witness :
    ¬ (((inpW.min_temp : ℝ) ≤ 200) ∧ ((200 : ℝ) ≤ (inpW.max_temp : ℝ))) ∧
    (evalHour inpW 20 false noDict 0 (some 200) (some 69) (some 0)
      0).is_good = false :=
  ⟨by norm_num [inpW],
    (C1_admissibility_conjunction inpW 20 false noDict 0 (some 200) (some 69)
      (some 0) 0).2.2.2.2.1 200 (by norm_num [inpW])⟩
